import Mathlib

/-!
Verification development for the firefly-telegram-bot repository.

The embedding translates the transaction parser, name resolver, arithmetic
evaluator, message handlers and the per-user persistence layer from
`bot/firefly.py`, `bot/models.py`, `bot/handlers.py` and `bot/database.py`
into executable Lean definitions, and settles the frozen claims about them.

Python exceptions are modelled by the `PyErr` type below; fallible code
returns `Except PyErr`.  Numeric amounts are modelled as exact rationals.
-/

deriving instance DecidableEq for Except

namespace FireflyBot

/-- Model of the Python exceptions that can arise in the parsing pipeline.
The first four mirror the typed `FireFlyBotException` subclasses declared in
`bot/models.py` (`CategoryError`, `SourceError`, `DestinationError`,
`StartError`).  The remaining constructors model untyped Python exceptions
that are reachable from the same code paths: a raw `KeyError` from a direct
per-user dictionary access, the generic `Exception("Unsafe eval")` raised by
`safe_math_eval` (`forbiddenEval`), and `ZeroDivisionError` /
`SyntaxError` escaping from the builtin `eval` (`divByZero` /
`malformedExpr`). -/
inductive PyErr where
  | categoryError
  | sourceError
  | destinationError
  | startError
  | keyError
  | forbiddenEval
  | divByZero
  | malformedExpr
deriving DecidableEq, Repr

/-- The four typed errors (subclasses of `FireFlyBotException` in
`bot/models.py`); exactly these are caught by the chat handlers. -/
def PyErr.isTyped : PyErr → Bool
  | .categoryError => true
  | .sourceError => true
  | .destinationError => true
  | .startError => true
  | _ => false

/-! ### Character classes

These model the character classes used by the regular expression in
`FireFlyTelegram.extract_info` (`bot/firefly.py` line 281) and by Python
string methods.  `isPySpace` models the characters matched by `\s` in a
Python 3 `str` pattern (also used for `str.strip`). -/

/-- Characters matched by `\s` in a Python 3 unicode regex (whitespace per
`str.isspace`): TAB..CR, FS..US, space, NEL, NBSP, ogham space, the U+2000
block, LS, PS, NNBSP, MMSP and ideographic space. -/
def isPySpace (c : Char) : Bool :=
  let n := c.toNat
  (9 ≤ n && n ≤ 13) || n == 32 || (28 ≤ n && n ≤ 31) || n == 133 || n == 160 ||
    n == 5760 || (8192 ≤ n && n ≤ 8202) || n == 8232 || n == 8233 ||
    n == 8239 || n == 8287 || n == 12288

/-- The letter class `[a-zA-ZÀ-ÿñÑ]` of the pattern.  `ñ` (U+00F1) and `Ñ`
(U+00D1) already lie inside the range `À`(U+00C0)..`ÿ`(U+00FF), which also
contains the two non-letter symbols `×` (U+00D7) and `÷` (U+00F7). -/
def isLetterClass (c : Char) : Bool :=
  let n := c.toNat
  (97 ≤ n && n ≤ 122) || (65 ≤ n && n ≤ 90) || (192 ≤ n && n ≤ 255)

/-- The description class `[a-zA-ZÀ-ÿñÑ\s]` of the pattern. -/
def isDescChar (c : Char) : Bool :=
  isLetterClass c || isPySpace c

/-- The amount class `[0-9-.\+\*\/\(\)]` of the pattern. -/
def isAmountChar (c : Char) : Bool :=
  c.isDigit || c == '-' || c == '.' || c == '+' || c == '*' || c == '/' ||
    c == '(' || c == ')'

/-- Python `str.strip()`: remove leading and trailing whitespace. -/
def pyStrip (s : String) : String :=
  String.mk (((s.toList.dropWhile isPySpace).reverse.dropWhile isPySpace).reverse)

/-! ### Slug normalization

Modelled from the spec: the name resolver normalizes with the external
`slugify` library (not part of this repository), described as a
"case-insensitive, accent-and-punctuation-folding slug transform" whose
output on e.g. "Café " and "cafe" is identical.  The model lowercases ASCII
letters, keeps digits, transliterates the Latin-1 letters (the only accented
letters admitted by the parser grammar) and folds every other character into
a separator; maximal kept runs are then joined with "-". -/

/-- Transliteration of the Latin-1 block U+00C0..U+00FF to lowercase ASCII;
the two symbols `×` and `÷` fold to a separator. -/
def latin1Fold (n : Nat) : List Char :=
  if 192 ≤ n && n ≤ 197 then ['a']        -- À Á Â Ã Ä Å
  else if n == 198 then ['a', 'e']        -- Æ
  else if n == 199 then ['c']             -- Ç
  else if 200 ≤ n && n ≤ 203 then ['e']   -- È É Ê Ë
  else if 204 ≤ n && n ≤ 207 then ['i']   -- Ì Í Î Ï
  else if n == 208 then ['d']             -- Ð
  else if n == 209 then ['n']             -- Ñ
  else if 210 ≤ n && n ≤ 214 then ['o']   -- Ò Ó Ô Õ Ö
  else if n == 216 then ['o']             -- Ø
  else if 217 ≤ n && n ≤ 220 then ['u']   -- Ù Ú Û Ü
  else if n == 221 then ['y']             -- Ý
  else if n == 222 then ['t', 'h']        -- Þ
  else if n == 223 then ['s', 's']        -- ß
  else if 224 ≤ n && n ≤ 229 then ['a']   -- à á â ã ä å
  else if n == 230 then ['a', 'e']        -- æ
  else if n == 231 then ['c']             -- ç
  else if 232 ≤ n && n ≤ 235 then ['e']   -- è é ê ë
  else if 236 ≤ n && n ≤ 239 then ['i']   -- ì í î ï
  else if n == 240 then ['d']             -- ð
  else if n == 241 then ['n']             -- ñ
  else if 242 ≤ n && n ≤ 246 then ['o']   -- ò ó ô õ ö
  else if n == 248 then ['o']             -- ø
  else if 249 ≤ n && n ≤ 252 then ['u']   -- ù ú û ü
  else if n == 253 then ['y']             -- ý
  else if n == 254 then ['t', 'h']        -- þ
  else if n == 255 then ['y']             -- ÿ
  else [' ']                              -- × ÷

/-- Per-character step of the slug transform: keep lowercased letters and
digits, transliterate Latin-1 letters, fold everything else to a separator
placeholder. -/
def slugTr (c : Char) : List Char :=
  let n := c.toNat
  if 97 ≤ n && n ≤ 122 then [c]
  else if 65 ≤ n && n ≤ 90 then [Char.ofNat (n + 32)]
  else if 48 ≤ n && n ≤ 57 then [c]
  else if 192 ≤ n && n ≤ 255 then latin1Fold n
  else [' ']

theorem length_dropWhile_le {α : Type} (p : α → Bool) :
    ∀ l : List α, (l.dropWhile p).length ≤ l.length := by
  intro l
  induction l with
  | nil => simp [List.dropWhile]
  | cons c r ih =>
    by_cases h : p c
    · simp only [List.dropWhile, h]
      exact Nat.le_trans ih (Nat.le_succ _)
    · simp [List.dropWhile, h]

/-- Split a character list into its maximal runs of non-separator
characters. -/
def splitRuns (l : List Char) : List (List Char) :=
  match l with
  | [] => []
  | c :: r =>
    if c == ' ' then splitRuns r
    else (c :: r.takeWhile (· != ' ')) :: splitRuns (r.dropWhile (· != ' '))
termination_by l.length
decreasing_by
  · simp only [List.length_cons]; omega
  · simp only [List.length_cons]
    exact Nat.lt_succ_of_le (length_dropWhile_le _ r)

/-- Modelled from the spec: the slug transform of the external `slugify`
dependency. -/
def slugify (s : String) : String :=
  String.intercalate "-" ((splitRuns (s.toList.flatMap slugTr)).map String.mk)

/-! ### Arithmetic evaluator

`safe_math_eval` (`bot/models.py` lines 16..29) first checks every character
of the input against the allow-list `"0123456789+-*(). /"` and raises
`Exception("Unsafe eval")` otherwise; only then does it call the builtin
`eval`.

Modelled from the spec: the builtin `eval` itself is not part of this
repository; per the spec it "evaluates the expression using standard
arithmetic operator precedence and parenthesization", failing with an
evaluation error on division by zero or malformed syntax (e.g. unbalanced
parentheses).  The model below is a standard-precedence evaluator over exact
rationals with binary `+ - * /`, unary sign, decimal literals and
parentheses.  Python-only extras reachable inside the allow-list (the power
operator `**`, floor division `//`, float rounding) are outside the spec's
evaluator and are not modelled. -/

/-- Errors of the modelled builtin `eval`: division by zero and malformed
syntax, kept in their own type so that, structurally, evaluation can never
produce the allow-list error. -/
inductive EvalErr where
  | divByZero
  | malformedExpr
deriving DecidableEq, Repr

/-- Injection of evaluation errors into the Python exception model. -/
def EvalErr.toPyErr : EvalErr → PyErr
  | .divByZero => .divByZero
  | .malformedExpr => .malformedExpr

/-- Tokens of the restricted arithmetic language. -/
inductive Tok where
  | num (q : ℚ)
  | plus
  | minus
  | star
  | slash
  | lparen
  | rparen
deriving DecidableEq, Repr

/-- Numeric value of a list of decimal digit characters. -/
def digitsToNat (l : List Char) : Nat :=
  l.foldl (fun a c => 10 * a + (c.toNat - 48)) 0

/-- Lex one numeric literal: digits, an optional dot, more digits; at least
one digit must be present overall. -/
def lexNumber (l : List Char) : Option (ℚ × List Char) :=
  let ds1 := l.takeWhile Char.isDigit
  let r1 := l.dropWhile Char.isDigit
  match r1 with
  | '.' :: r2 =>
    let ds2 := r2.takeWhile Char.isDigit
    let r3 := r2.dropWhile Char.isDigit
    if ds1.isEmpty && ds2.isEmpty then none
    else some ((digitsToNat ds1 : ℚ) + (digitsToNat ds2 : ℚ) / ((10 : ℚ) ^ ds2.length), r3)
  | _ =>
    if ds1.isEmpty then none else some ((digitsToNat ds1 : ℚ), r1)

/-- Tokenizer for the restricted arithmetic language; skips whitespace,
fails (syntax error) on a lone dot or any unexpected character.  The fuel
argument only serves termination: every step consumes at least one
character, so `length + 1` fuel always suffices. -/
def lexAmountF : Nat → List Char → Option (List Tok)
  | 0, _ => none
  | _ + 1, [] => some []
  | f + 1, c :: r =>
    if isPySpace c then lexAmountF f r
    else if c == '+' then (lexAmountF f r).map (Tok.plus :: ·)
    else if c == '-' then (lexAmountF f r).map (Tok.minus :: ·)
    else if c == '*' then (lexAmountF f r).map (Tok.star :: ·)
    else if c == '/' then (lexAmountF f r).map (Tok.slash :: ·)
    else if c == '(' then (lexAmountF f r).map (Tok.lparen :: ·)
    else if c == ')' then (lexAmountF f r).map (Tok.rparen :: ·)
    else if c.isDigit || c == '.' then
      match lexNumber (c :: r) with
      | none => none
      | some (q, rest) => (lexAmountF f rest).map (Tok.num q :: ·)
    else none

/-- Tokenize an amount expression. -/
def lexAmount (l : List Char) : Option (List Tok) :=
  lexAmountF (l.length + 1) l

mutual

/-- `expr := term (("+" | "-") term)*`; fuel decreases at every call. -/
def pExpr : Nat → List Tok → Except EvalErr (ℚ × List Tok)
  | 0, _ => .error .malformedExpr
  | f + 1, ts => do
    let (v, r) ← pTerm f ts
    pExprTail f v r

/-- Left-associated tail of additive chains. -/
def pExprTail : Nat → ℚ → List Tok → Except EvalErr (ℚ × List Tok)
  | 0, _, _ => .error .malformedExpr
  | f + 1, acc, ts =>
    match ts with
    | .plus :: r => do
      let (v, r2) ← pTerm f r
      pExprTail f (acc + v) r2
    | .minus :: r => do
      let (v, r2) ← pTerm f r
      pExprTail f (acc - v) r2
    | _ => .ok (acc, ts)

/-- `term := unary (("*" | "/") unary)*`. -/
def pTerm : Nat → List Tok → Except EvalErr (ℚ × List Tok)
  | 0, _ => .error .malformedExpr
  | f + 1, ts => do
    let (v, r) ← pUnary f ts
    pTermTail f v r

/-- Left-associated tail of multiplicative chains; division by zero fails
with the zero-division error. -/
def pTermTail : Nat → ℚ → List Tok → Except EvalErr (ℚ × List Tok)
  | 0, _, _ => .error .malformedExpr
  | f + 1, acc, ts =>
    match ts with
    | .star :: r => do
      let (v, r2) ← pUnary f r
      pTermTail f (acc * v) r2
    | .slash :: r => do
      let (v, r2) ← pUnary f r
      if v == 0 then .error .divByZero else pTermTail f (acc / v) r2
    | _ => .ok (acc, ts)

/-- `unary := ("+" | "-") unary | atom`. -/
def pUnary : Nat → List Tok → Except EvalErr (ℚ × List Tok)
  | 0, _ => .error .malformedExpr
  | f + 1, ts =>
    match ts with
    | .plus :: r => pUnary f r
    | .minus :: r => (pUnary f r).map (fun p => (-p.1, p.2))
    | _ => pAtom f ts

/-- `atom := number | "(" expr ")"`. -/
def pAtom : Nat → List Tok → Except EvalErr (ℚ × List Tok)
  | 0, _ => .error .malformedExpr
  | f + 1, ts =>
    match ts with
    | .num q :: r => .ok (q, r)
    | .lparen :: r => do
      let (v, r2) ← pExpr f r
      match r2 with
      | .rparen :: r3 => .ok (v, r3)
      | _ => .error .malformedExpr
    | _ => .error .malformedExpr

end

/-- Modelled from the spec: the builtin `eval` on a restricted arithmetic
expression — standard precedence, parenthesization, division by zero and
malformed syntax reported as distinct evaluation errors. -/
def evalArith (s : String) : Except EvalErr ℚ :=
  match lexAmount s.toList with
  | none => .error .malformedExpr
  | some ts =>
    match pExpr (4 * ts.length + 4) ts with
    | .error e => .error e
    | .ok (v, []) => .ok v
    | .ok (_, _ :: _) => .error .malformedExpr

/-- The character allow-list of `safe_math_eval` (`bot/models.py` line 25). -/
def allowedChars : List Char := "0123456789+-*(). /".toList

/-- `safe_math_eval` (`bot/models.py` lines 16..29): raise the generic
"Unsafe eval" exception if any character is outside the allow-list,
otherwise hand the string to the builtin `eval`. -/
def safe_math_eval (s : String) : Except PyErr ℚ :=
  if s.toList.all (fun c => allowedChars.contains c) then
    (evalArith s).mapError EvalErr.toPyErr
  else .error .forbiddenEval

/-! ### Per-user cached data

`FireFlyTelegram` keeps per-user dictionaries (`default_accounts`,
`categories`, `source_accounts`, `destination_accounts`, `asset_accounts`);
a handler loads them from the database at the start of an operation and
clears them at the end.  For a fixed user, each dictionary either has an
entry (`some`) or no entry (`none`, a lookup raises `KeyError`). -/

structure UserData where
  defaultAccount : Option String
  categories : Option (List String)
  sourceAccounts : Option (List String)
  destinationAccounts : Option (List String)
  assetAccounts : Option (List String)
deriving DecidableEq, Repr

/-- First element of `l` whose slug equals `target`.  This fuses the Python
idiom `l[[slugify(i) for i in l].index(slugify(x))]` used by the three
resolvers: `list.index` returns the position of the first occurrence in the
slugified copy, and since `map` preserves positions, subscripting the
original list at that position yields the first slug-matching element (the
subscript itself can never fail, the index being in range). -/
def pyLookup (target : String) : List String → Option String
  | [] => none
  | c :: r => if slugify c == target then some c else pyLookup target r

/-- `FireFlyTelegram.get_category` (`bot/firefly.py` lines 174..190):
`ValueError` from `list.index` becomes `CategoryError`, `KeyError` from the
missing per-user entry becomes `StartError`. -/
def get_category (category : String) (d : UserData) : Except PyErr String :=
  match d.categories with
  | none => .error .startError
  | some cats =>
    match pyLookup (slugify category) cats with
    | some name => .ok name
    | none => .error .categoryError

/-- `FireFlyTelegram.get_source_account` (`bot/firefly.py` lines 192..208). -/
def get_source_account (account : String) (d : UserData) : Except PyErr String :=
  match d.sourceAccounts with
  | none => .error .startError
  | some accs =>
    match pyLookup (slugify account) accs with
    | some name => .ok name
    | none => .error .sourceError

/-- `FireFlyTelegram.get_destination_account` (`bot/firefly.py` lines
210..226). -/
def get_destination_account (account : String) (d : UserData) : Except PyErr String :=
  match d.destinationAccounts with
  | none => .error .startError
  | some accs =>
    match pyLookup (slugify account) accs with
    | some name => .ok name
    | none => .error .destinationError

/-! ### The transaction pattern

`extract_info` matches its input against

  `^([a-zA-ZÀ-ÿñÑ\s]+)\s+([0-9-.\+\*\/\(\)]+)`
  `(?:\s+([a-zA-ZÀ-ÿñÑ]+))?(?:\s+([a-zA-ZÀ-ÿñÑ]+))?(?:\s+([a-zA-ZÀ-ÿñÑ]+))?$`

The three character classes (description, amount, single-word token) are
pairwise disjoint where it matters: an amount character is never a
description character, a whitespace character is never a letter.  Greedy
matching with backtracking therefore reduces to a deterministic split:

* group 1 plus the following `\s+` together form the maximal prefix `p` of
  description characters — the match requires `p` to end in whitespace (the
  `\s+` can only ever consume that final run) and greediness gives group 1
  all of `p` but its last character;
* group 2 is the maximal run of amount characters that follows, which must
  be nonempty;
* the three optional groups then each consume `\s+` plus a maximal nonempty
  run of letter-class characters, and `$` requires the remainder to be
  exhausted — or to consist of exactly one final newline, which `$`
  matches before — after at most three such tokens. -/

structure MatchGroups where
  g1 : String
  g2 : String
  g3 : Option String
  g4 : Option String
  g5 : Option String
deriving DecidableEq, Repr

/-- Parse the remainder after the amount group as at most `k` tokens, each a
run of whitespace followed by a nonempty run of letter-class characters;
anything else refuses the whole match — except a remainder of exactly one
newline: the anchor `$` of a Python pattern (without `re.MULTILINE`) also
matches just before a single newline at the end of the string, and it is
tested exactly at these positions, i.e. after each complete optional
group.  Any other trailing whitespace refuses the match. -/
def tokensAfter : Nat → List Char → Option (List String)
  | _, [] => some []
  | k, c :: r =>
    if c = '\n' ∧ r = [] then some []
    else
      match k with
      | 0 => none
      | k2 + 1 =>
        if ((c :: r).takeWhile isPySpace).isEmpty then none
        else
          let l2 := (c :: r).dropWhile isPySpace
          let t := l2.takeWhile isLetterClass
          if t.isEmpty then none
          else (tokensAfter k2 (l2.dropWhile isLetterClass)).map (String.mk t :: ·)

/-- The anchored match of the `extract_info` pattern. -/
def extractMatch (s : String) : Option MatchGroups :=
  let cs := s.toList
  let p := cs.takeWhile isDescChar
  let rest1 := cs.dropWhile isDescChar
  let q := rest1.takeWhile isAmountChar
  let rest2 := rest1.dropWhile isAmountChar
  if 2 ≤ p.length && isPySpace (p.getLastD 'x') && !q.isEmpty then
    match tokensAfter 3 rest2 with
    | none => none
    | some toks => some ⟨String.mk p.dropLast, String.mk q, toks[0]?, toks[1]?, toks[2]?⟩
  else none

/-- Result of the parsed-transaction dictionary built by `extract_info`. -/
structure TxInfo where
  description : String
  number : ℚ
  category : Option String
  source : Option String
  destination : Option String
  type : String
deriving DecidableEq, Repr

/-- Result of `extract_info`: `None` (no regex match), a transaction info
dictionary, or a raised exception. -/
inductive ExtractResult where
  | noMatch
  | ok (i : TxInfo)
  | error (e : PyErr)
deriving DecidableEq, Repr

/-- Python membership test `x in l` where `x` is an optional string
(`None in l` is false for a list of strings). -/
def memOpt (o : Option String) (l : List String) : Bool :=
  match o with
  | none => false
  | some s => l.contains s

/-- `FireFlyTelegram.extract_info` (`bot/firefly.py` lines 271..303).  The
side-effecting steps run in source order: accounts (group 4 before group 5
in the `+` branch, group 4 before group 5 in the other), then
`safe_math_eval` on group 2, then the category, then the direction
inference reading the per-user asset list (a raw dictionary access).  When
group 4 is absent the account falls back to `default_accounts[user]` — a
raw dictionary access raising `KeyError` if the user has no entry.
`plusHead` is the test `match.group(2)[0] == "+"` (group 2 is nonempty
whenever the pattern matched); `extractStep` is the body of the match arm,
and `extract_info` glues it to the pattern match. -/
def plusHead (g : String) : Bool :=
  match g.toList with
  | c :: _ => c == '+'
  | [] => false

/-- Group 4 resolved as destination with default-account fallback
(`bot/firefly.py` line 286). -/
def resolveG4Dst (m : MatchGroups) (d : UserData) : Except PyErr (Option String) :=
  match m.g4 with
  | some t => (get_destination_account t d).map some
  | none =>
    match d.defaultAccount with
    | some a => Except.ok (some a)
    | none => Except.error PyErr.keyError

/-- Group 5 resolved as source with no default (`bot/firefly.py` line 287). -/
def resolveG5Src (m : MatchGroups) (d : UserData) : Except PyErr (Option String) :=
  match m.g5 with
  | some t => (get_source_account t d).map some
  | none => Except.ok none

/-- Group 4 resolved as source with default-account fallback
(`bot/firefly.py` line 289). -/
def resolveG4Src (m : MatchGroups) (d : UserData) : Except PyErr (Option String) :=
  match m.g4 with
  | some t => (get_source_account t d).map some
  | none =>
    match d.defaultAccount with
    | some a => Except.ok (some a)
    | none => Except.error PyErr.keyError

/-- Group 5 resolved as destination with no default (`bot/firefly.py` line
290). -/
def resolveG5Dst (m : MatchGroups) (d : UserData) : Except PyErr (Option String) :=
  match m.g5 with
  | some t => (get_destination_account t d).map some
  | none => Except.ok none

/-- Group 3 resolved as category when present (`bot/firefly.py` line 293). -/
def resolveG3Cat (m : MatchGroups) (d : UserData) : Except PyErr (Option String) :=
  match m.g3 with
  | some t => (get_category t d).map some
  | none => Except.ok none

/-- Direction inference (`bot/firefly.py` lines 295..300): a raw access to
the per-user asset list, then the two membership tests. -/
def kindOf (d : UserData) (source destination : Option String) : Except PyErr String :=
  match d.assetAccounts with
  | none => Except.error PyErr.keyError
  | some assets =>
    Except.ok
      (if memOpt source assets && !memOpt destination assets then "withdrawal"
       else if !memOpt source assets && memOpt destination assets then "deposit"
       else "transfer")

/-- Account resolution for both branches of the sign rule, in source
evaluation order (line 286 before 287, line 289 before 290). -/
def resolveAccounts (m : MatchGroups) (d : UserData) :
    Except PyErr (Option String × Option String) :=
  if plusHead m.g2 then
    resolveG4Dst m d >>= fun dst => resolveG5Src m d >>= fun src =>
      Except.ok (src, dst)
  else
    resolveG4Src m d >>= fun src => resolveG5Dst m d >>= fun dst =>
      Except.ok (src, dst)

/-- The body of the matched arm of `extract_info`, with the side-effecting
steps in source order: accounts, amount, category, direction. -/
def extractStep (m : MatchGroups) (d : UserData) : Except PyErr TxInfo :=
  resolveAccounts m d >>= fun sd =>
    safe_math_eval m.g2 >>= fun number =>
      resolveG3Cat m d >>= fun category =>
        kindOf d sd.1 sd.2 >>= fun kind =>
          Except.ok ⟨pyStrip m.g1, number, category, sd.1, sd.2, kind⟩

def extract_info (s : String) (d : UserData) : ExtractResult :=
  match extractMatch s with
  | none => .noMatch
  | some m =>
    match extractStep m d with
    | .ok i => .ok i
    | .error e => .error e

/-! ### Chat handlers (`bot/handlers.py`) -/

def categoryMsg : String := "Add the category to FireFlyIII and run /update before!"
def sourceMsg : String := "Add the source account to FireFlyIII and run /update before!"
def destinationMsg : String := "Add the destination account to FireFlyIII and run /update before!"
def startMsg : String := "Run /start first!"
def invalidMsg : String := "Invalid Input!"

/-- Observable outcome of a message handler: a transaction-creation request
handed to `new_transaction`, a chat message, or an uncaught exception
crashing the handler. -/
inductive Reply where
  | created (i : TxInfo)
  | message (s : String)
  | crash (e : PyErr)
deriving DecidableEq, Repr

/-- `echo_all` (`bot/handlers.py` lines 197..236): runs the parser, sends
one specific chat message per typed error, sends the generic invalid-input
message on no match; any other exception is uncaught. -/
def echo_all (text : String) (d : UserData) : Reply :=
  match extract_info text d with
  | .noMatch => .message invalidMsg
  | .ok i => .created i
  | .error .categoryError => .message categoryMsg
  | .error .sourceError => .message sourceMsg
  | .error .destinationError => .message destinationMsg
  | .error .startError => .message startMsg
  | .error e => .crash e

/-- `echo_transfer` (`bot/handlers.py` lines 168..195): for digit-leading
messages, split on single spaces; with exactly three parts resolve part 1
as source, part 2 as destination, evaluate part 0, and create a transfer
with description "Transfer"; otherwise reply with the generic
invalid-input message.  Only the three typed account/session errors are
caught; `safe_math_eval` failures are uncaught. -/
def echo_transfer (text : String) (d : UserData) : Reply :=
  let parts := text.splitOn " "
  if parts.length == 3 then
    let step : Except PyErr TxInfo := do
      let src ← get_source_account (parts.getD 1 "") d
      let dst ← get_destination_account (parts.getD 2 "") d
      let n ← safe_math_eval (parts.getD 0 "")
      pure ⟨"Transfer", n, none, some src, some dst, "transfer"⟩
    match step with
    | .ok i => .created i
    | .error .sourceError => .message sourceMsg
    | .error .destinationError => .message destinationMsg
    | .error .startError => .message startMsg
    | .error e => .crash e
  else .message invalidMsg

/-- Dispatch between the two free-text handlers (`bot/handlers.py` lines
168 and 197): a message whose first character is a digit goes to
`echo_transfer`, every other message goes to `echo_all`.  (Python
`str.isdigit` also accepts some non-ASCII digit characters; only ASCII
digits can matter here, and an empty message would crash the dispatch
lambda itself — Telegram never delivers one.) -/
def handle_message (text : String) (d : UserData) : Reply :=
  let digitHead : Bool :=
    match text.toList with
    | c :: _ => c.isDigit
    | [] => false
  if digitHead then echo_transfer text d else echo_all text d

/-! ### The grammar shape as worded by the spec

Used only to compare the code's behaviour against the specification text
for the claim about `NoMatch`: description of one or more alphabetic words
(letters including accented Latin characters, no digits or symbols), one
contiguous amount expression, then at most three single alphabetic words. -/

/-- A letter in the sense of the spec wording: ASCII letters and accented
Latin-1 letters — excluding the symbols `×` and `÷`. -/
def specLetter (c : Char) : Bool :=
  let n := c.toNat
  (97 ≤ n && n ≤ 122) || (65 ≤ n && n ≤ 90) ||
    (192 ≤ n && n ≤ 255 && n != 215 && n != 247)

/-- A nonempty all-letter word per the spec wording. -/
def specWord (w : String) : Bool :=
  !w.isEmpty && w.toList.all specLetter

/-- A nonempty contiguous amount expression per the spec wording. -/
def specAmountTok (w : String) : Bool :=
  !w.isEmpty && w.toList.all isAmountChar

/-- Split a line into its maximal whitespace-separated groups. -/
def wsWords (l : List Char) : List String :=
  match l with
  | [] => []
  | c :: r =>
    if isPySpace c then wsWords r
    else
      String.mk (c :: r.takeWhile (fun x => !isPySpace x)) ::
        wsWords (r.dropWhile (fun x => !isPySpace x))
termination_by l.length
decreasing_by
  · simp only [List.length_cons]; omega
  · simp only [List.length_cons]
    exact Nat.lt_succ_of_le (length_dropWhile_le _ r)

/-- The grammar shape exactly as the spec words it: `<description words>
<amount-expr> [<token3>] [<token4>] [<token5>]` with one or more alphabetic
description words and at most three single alphabetic trailing tokens.
(Word groups and amount groups are disjoint, so the leading run of word
groups is the only possible description.) -/
def specGrammar (s : String) : Bool :=
  let ts := wsWords s.toList
  let k := (ts.takeWhile specWord).length
  let tail := ts.drop (k + 1)
  decide (1 ≤ k) &&
    (match ts[k]? with
     | some a => specAmountTok a
     | none => false) &&
    decide (tail.length ≤ 3) && tail.all specWord

/-! ### Concrete user snapshots used by witnesses and counterexamples -/

/-- A fully populated cache: `Checking` is an asset account, default
account `Checking`, categories `Food` and `Income`. -/
def dFull : UserData :=
  ⟨some "Checking", some ["Food", "Income"], some ["Checking", "Salary"],
    some ["Checking", "Shop"], some ["Checking"]⟩

/-- A cache holding only the category list `["Cafe"]`. -/
def dCafe : UserData := ⟨none, some ["Cafe"], none, none, none⟩

/-- A cache for the transfer example: both `Checking` and `Savings` are
asset accounts (hence both source- and destination-eligible). -/
def dTransfer : UserData :=
  ⟨some "", some [], some ["Checking", "Savings"], some ["Checking", "Savings"],
    some ["Checking", "Savings"]⟩

/-! ### Helper lemmas -/

theorem except_bind_ok {α β : Type} {e : Except PyErr α} {f : α → Except PyErr β}
    {b : β} : (e >>= f) = Except.ok b ↔ ∃ a, e = Except.ok a ∧ f a = Except.ok b := by
  cases e with
  | error err => simp [Bind.bind, Except.bind]
  | ok a => simp [Bind.bind, Except.bind]

theorem except_bind_error {α β : Type} {e : Except PyErr α} {f : α → Except PyErr β}
    {err : PyErr} :
    (e >>= f) = Except.error err ↔
      e = Except.error err ∨ ∃ a, e = Except.ok a ∧ f a = Except.error err := by
  cases e with
  | error e0 => simp [Bind.bind, Except.bind]
  | ok a => simp [Bind.bind, Except.bind]

theorem except_map_ok {α β : Type} {e : Except PyErr α} {g : α → β} {b : β} :
    e.map g = Except.ok b ↔ ∃ a, e = Except.ok a ∧ g a = b := by
  cases e with
  | error err => simp [Except.map]
  | ok a => simp [Except.map]

theorem except_map_error {α β : Type} {e : Except PyErr α} {g : α → β} {err : PyErr} :
    e.map g = Except.error err ↔ e = Except.error err := by
  cases e with
  | error e0 => simp [Except.map]
  | ok a => simp [Except.map]

/-- `pyLookup` is first-match search: it agrees with `List.find?` on the
slug-equality predicate. -/
theorem pyLookup_eq_find (t : String) (l : List String) :
    pyLookup t l = l.find? (fun c => slugify c == t) := by
  induction l with
  | nil => rfl
  | cons c r ih =>
    by_cases h : (slugify c == t) = true
    · simp [pyLookup, List.find?, h]
    · simp only [Bool.not_eq_true] at h
      simp [pyLookup, List.find?, h, ih]

/-- Every digit character is in the `safe_math_eval` allow-list. -/
theorem digit_mem_allowed (c : Char) (h : c.isDigit = true) :
    allowedChars.contains c = true := by
  simp only [Char.isDigit, Bool.and_eq_true, decide_eq_true_eq] at h
  obtain ⟨h1, h2⟩ := h
  have h1n : 48 ≤ c.toNat := h1
  have h2n : c.toNat ≤ 57 := h2
  have hd : c.toNat = 48 ∨ c.toNat = 49 ∨ c.toNat = 50 ∨ c.toNat = 51 ∨
      c.toNat = 52 ∨ c.toNat = 53 ∨ c.toNat = 54 ∨ c.toNat = 55 ∨
      c.toNat = 56 ∨ c.toNat = 57 := by omega
  have hc := Char.ofNat_toNat c
  rcases hd with h | h | h | h | h | h | h | h | h | h <;> rw [h] at hc <;>
    rw [← hc] <;> decide

/-- Every character of the amount class is in the `safe_math_eval`
allow-list. -/
theorem amount_mem_allowed (c : Char) (h : isAmountChar c = true) :
    allowedChars.contains c = true := by
  simp only [isAmountChar, Bool.or_eq_true, beq_iff_eq] at h
  rcases h with ((((((h | h) | h) | h) | h) | h) | h) | h
  · exact digit_mem_allowed c h
  all_goals subst h; decide

/-! ### Decomposition of a successful parse -/

def resolvedPlus (m : MatchGroups) (d : UserData) (src dst : Option String) : Prop :=
  (match m.g4 with
   | some t => ∃ v, get_destination_account t d = .ok v ∧ dst = some v
   | none => ∃ a, d.defaultAccount = some a ∧ dst = some a) ∧
  (match m.g5 with
   | some t => ∃ v, get_source_account t d = .ok v ∧ src = some v
   | none => src = none)

def resolvedMinus (m : MatchGroups) (d : UserData) (src dst : Option String) : Prop :=
  (match m.g4 with
   | some t => ∃ v, get_source_account t d = .ok v ∧ src = some v
   | none => ∃ a, d.defaultAccount = some a ∧ src = some a) ∧
  (match m.g5 with
   | some t => ∃ v, get_destination_account t d = .ok v ∧ dst = some v
   | none => dst = none)

def resolvedCat (m : MatchGroups) (d : UserData) (cat : Option String) : Prop :=
  match m.g3 with
  | some t => ∃ v, get_category t d = .ok v ∧ cat = some v
  | none => cat = none

theorem resolveG4Dst_ok {m : MatchGroups} {d : UserData} {dst : Option String}
    (h : resolveG4Dst m d = .ok dst) :
    match m.g4 with
    | some t => ∃ v, get_destination_account t d = .ok v ∧ dst = some v
    | none => ∃ a, d.defaultAccount = some a ∧ dst = some a := by
  cases hg : m.g4 with
  | some t =>
    rw [resolveG4Dst, hg] at h
    rcases except_map_ok.mp h with ⟨v, hv, hveq⟩
    exact ⟨v, hv, hveq.symm⟩
  | none =>
    rw [resolveG4Dst, hg] at h
    cases hda : d.defaultAccount with
    | none => rw [hda] at h; exact absurd h (by simp)
    | some a =>
      rw [hda] at h
      simp only [Except.ok.injEq] at h
      exact ⟨a, rfl, h.symm⟩

theorem resolveG4Src_ok {m : MatchGroups} {d : UserData} {src : Option String}
    (h : resolveG4Src m d = .ok src) :
    match m.g4 with
    | some t => ∃ v, get_source_account t d = .ok v ∧ src = some v
    | none => ∃ a, d.defaultAccount = some a ∧ src = some a := by
  cases hg : m.g4 with
  | some t =>
    rw [resolveG4Src, hg] at h
    rcases except_map_ok.mp h with ⟨v, hv, hveq⟩
    exact ⟨v, hv, hveq.symm⟩
  | none =>
    rw [resolveG4Src, hg] at h
    cases hda : d.defaultAccount with
    | none => rw [hda] at h; exact absurd h (by simp)
    | some a =>
      rw [hda] at h
      simp only [Except.ok.injEq] at h
      exact ⟨a, rfl, h.symm⟩

theorem resolveG5Src_ok {m : MatchGroups} {d : UserData} {src : Option String}
    (h : resolveG5Src m d = .ok src) :
    match m.g5 with
    | some t => ∃ v, get_source_account t d = .ok v ∧ src = some v
    | none => src = none := by
  cases hg : m.g5 with
  | some t =>
    rw [resolveG5Src, hg] at h
    rcases except_map_ok.mp h with ⟨v, hv, hveq⟩
    exact ⟨v, hv, hveq.symm⟩
  | none =>
    rw [resolveG5Src, hg] at h
    simp only [Except.ok.injEq] at h
    exact h.symm

theorem resolveG5Dst_ok {m : MatchGroups} {d : UserData} {dst : Option String}
    (h : resolveG5Dst m d = .ok dst) :
    match m.g5 with
    | some t => ∃ v, get_destination_account t d = .ok v ∧ dst = some v
    | none => dst = none := by
  cases hg : m.g5 with
  | some t =>
    rw [resolveG5Dst, hg] at h
    rcases except_map_ok.mp h with ⟨v, hv, hveq⟩
    exact ⟨v, hv, hveq.symm⟩
  | none =>
    rw [resolveG5Dst, hg] at h
    simp only [Except.ok.injEq] at h
    exact h.symm

theorem resolveG3Cat_ok {m : MatchGroups} {d : UserData} {cat : Option String}
    (h : resolveG3Cat m d = .ok cat) : resolvedCat m d cat := by
  rw [resolvedCat]
  cases hg : m.g3 with
  | some t =>
    rw [resolveG3Cat, hg] at h
    rcases except_map_ok.mp h with ⟨v, hv, hveq⟩
    exact ⟨v, hv, hveq.symm⟩
  | none =>
    rw [resolveG3Cat, hg] at h
    simp only [Except.ok.injEq] at h
    exact h.symm

theorem extractStep_ok_decomp (m : MatchGroups) (d : UserData) (i : TxInfo)
    (h : extractStep m d = .ok i) :
    ∃ src dst n cat assets,
      (plusHead m.g2 = true → resolvedPlus m d src dst) ∧
      (plusHead m.g2 = false → resolvedMinus m d src dst) ∧
      safe_math_eval m.g2 = .ok n ∧
      resolvedCat m d cat ∧
      d.assetAccounts = some assets ∧
      i = ⟨pyStrip m.g1, n, cat, src, dst,
           if memOpt src assets && !memOpt dst assets then "withdrawal"
           else if !memOpt src assets && memOpt dst assets then "deposit"
           else "transfer"⟩ := by
  rw [extractStep] at h
  rcases except_bind_ok.mp h with ⟨sd, hacc, h2⟩
  rcases except_bind_ok.mp h2 with ⟨n, hnum, h3⟩
  rcases except_bind_ok.mp h3 with ⟨cat, hcat, h4⟩
  rcases except_bind_ok.mp h4 with ⟨k, hkind, h5⟩
  cases hassets : d.assetAccounts with
  | none =>
    rw [kindOf, hassets] at hkind
    exact absurd hkind (by simp)
  | some assets =>
    rw [kindOf, hassets] at hkind
    simp only [Except.ok.injEq] at hkind
    simp only [Except.ok.injEq] at h5
    refine ⟨sd.1, sd.2, n, cat, assets, ?_, ?_, hnum, resolveG3Cat_ok hcat, rfl, ?_⟩
    · intro hplus
      rw [resolveAccounts, hplus] at hacc
      simp only [if_true] at hacc
      rcases except_bind_ok.mp hacc with ⟨dstv, hdst, hacc2⟩
      rcases except_bind_ok.mp hacc2 with ⟨srcv, hsrc, hpure⟩
      simp only [Except.ok.injEq] at hpure
      rw [← hpure]
      exact ⟨resolveG4Dst_ok hdst, resolveG5Src_ok hsrc⟩
    · intro hplus
      rw [resolveAccounts, hplus] at hacc
      simp only [Bool.false_eq_true, if_false] at hacc
      rcases except_bind_ok.mp hacc with ⟨srcv, hsrc, hacc2⟩
      rcases except_bind_ok.mp hacc2 with ⟨dstv, hdst, hpure⟩
      simp only [Except.ok.injEq] at hpure
      rw [← hpure]
      exact ⟨resolveG4Src_ok hsrc, resolveG5Dst_ok hdst⟩
    · rw [← h5, ← hkind]

/-! ### Decomposition of the full parser -/

theorem extract_info_ok {s : String} {d : UserData} {i : TxInfo}
    (h : extract_info s d = .ok i) :
    ∃ m, extractMatch s = some m ∧ extractStep m d = .ok i := by
  rw [extract_info] at h
  split at h
  · exact absurd h (by simp)
  · rename_i m hm
    split at h
    · rename_i a hs
      simp only [ExtractResult.ok.injEq] at h
      exact ⟨m, hm, h ▸ hs⟩
    · exact absurd h (by simp)

theorem extract_info_error {s : String} {d : UserData} {e : PyErr}
    (h : extract_info s d = .error e) :
    ∃ m, extractMatch s = some m ∧ extractStep m d = .error e := by
  rw [extract_info] at h
  split at h
  · exact absurd h (by simp)
  · rename_i m hm
    split at h
    · exact absurd h (by simp)
    · rename_i e0 hs
      simp only [ExtractResult.error.injEq] at h
      exact ⟨m, hm, h ▸ hs⟩

theorem tokensAfter_sound :
    ∀ (k : Nat) (l : List Char) (toks : List String),
      tokensAfter k l = some toks →
      toks.length ≤ k ∧
        ∀ t ∈ toks, t.toList ≠ [] ∧ t.toList.all isLetterClass = true := by
  intro k
  induction k with
  | zero =>
    intro l toks h
    cases l with
    | nil =>
      rw [tokensAfter] at h
      simp only [Option.some.injEq] at h
      simp [← h]
    | cons c r =>
      rw [tokensAfter] at h
      by_cases hnl : c = '\n' ∧ r = []
      · rw [if_pos hnl] at h
        simp only [Option.some.injEq] at h
        simp [← h]
      · rw [if_neg hnl] at h
        exact absurd h (by simp)
  | succ k ih =>
    intro l toks h
    cases l with
    | nil =>
      rw [tokensAfter] at h
      simp only [Option.some.injEq] at h
      simp [← h]
    | cons c r =>
      rw [tokensAfter] at h
      by_cases hnl : c = '\n' ∧ r = []
      · rw [if_pos hnl] at h
        simp only [Option.some.injEq] at h
        simp [← h]
      · rw [if_neg hnl] at h
        simp only at h
        by_cases hw : ((c :: r).takeWhile isPySpace).isEmpty
        · rw [if_pos hw] at h
          exact absurd h (by simp)
        · rw [if_neg hw] at h
          by_cases ht : (((c :: r).dropWhile isPySpace).takeWhile isLetterClass).isEmpty
          · rw [if_pos ht] at h
            exact absurd h (by simp)
          · rw [if_neg ht] at h
            cases hrec : tokensAfter k (((c :: r).dropWhile isPySpace).dropWhile isLetterClass) with
            | none => rw [hrec] at h; exact absurd h (by simp)
            | some toks0 =>
              rw [hrec] at h
              simp only [Option.map_some', Option.some.injEq] at h
              obtain ⟨hlen, hall⟩ := ih _ _ hrec
              subst h
              refine ⟨by rw [List.length_cons]; omega, ?_⟩
              intro t hmem
              rcases List.mem_cons.mp hmem with rfl | hmem2
              · constructor
                · intro hnil
                  rw [Bool.not_eq_true, List.isEmpty_eq_false] at ht
                  exact ht (by simp only [String.toList] at hnil; exact hnil)
                · simp only [String.toList]
                  exact List.all_takeWhile
              · exact hall t hmem2

theorem extractMatch_groups {s : String} {m : MatchGroups}
    (h : extractMatch s = some m) :
    m.g1.toList ≠ [] ∧ m.g1.toList.all isDescChar = true ∧
    m.g2.toList ≠ [] ∧ m.g2.toList.all isAmountChar = true ∧
    (∀ t, m.g3 = some t ∨ m.g4 = some t ∨ m.g5 = some t →
      t.toList ≠ [] ∧ t.toList.all isLetterClass = true) := by
  rw [extractMatch] at h
  by_cases hcond :
      (2 ≤ (s.toList.takeWhile isDescChar).length &&
        isPySpace ((s.toList.takeWhile isDescChar).getLastD 'x') &&
        !((s.toList.dropWhile isDescChar).takeWhile isAmountChar).isEmpty) = true
  · rw [if_pos hcond] at h
    simp only [Bool.and_eq_true, decide_eq_true_eq, Bool.not_eq_eq_eq_not,
      Bool.not_true, Bool.not_eq_true] at hcond
    obtain ⟨⟨hlen, _⟩, hq⟩ := hcond
    cases htoks : tokensAfter 3 ((s.toList.dropWhile isDescChar).dropWhile isAmountChar) with
    | none => rw [htoks] at h; exact absurd h (by simp)
    | some toks =>
      rw [htoks] at h
      simp only [Option.some.injEq] at h
      obtain ⟨_, hall⟩ := tokensAfter_sound 3 _ _ htoks
      subst h
      refine ⟨?_, ?_, ?_, ?_, ?_⟩
      · show (s.toList.takeWhile isDescChar).dropLast ≠ []
        intro hnil
        have hlen2 := congrArg List.length hnil
        rw [List.length_dropLast, List.length_nil] at hlen2
        omega
      · show ((s.toList.takeWhile isDescChar).dropLast).all isDescChar = true
        rw [List.all_eq_true]
        intro x hx
        exact List.mem_takeWhile_imp (List.dropLast_subset _ hx)
      · show (s.toList.dropWhile isDescChar).takeWhile isAmountChar ≠ []
        rw [← List.isEmpty_eq_false]
        exact hq
      · show ((s.toList.dropWhile isDescChar).takeWhile isAmountChar).all isAmountChar = true
        exact List.all_takeWhile
      · intro t hmem
        have hmem2 : t ∈ toks := by
          rcases hmem with h3 | h4 | h5
          · exact List.getElem?_mem (show toks[0]? = some t from h3)
          · exact List.getElem?_mem (show toks[1]? = some t from h4)
          · exact List.getElem?_mem (show toks[2]? = some t from h5)
        exact hall t hmem2
  · rw [if_neg hcond] at h
    exact absurd h (by simp)

/-! ## Claims -/

/-- **C6** — The arithmetic evaluator fails with the unsafe-expression error
(and performs no evaluation) whenever the input contains a character outside
`{0-9, +, -, *, /, (, ), ., space}`; otherwise it evaluates under standard
precedence and parenthesization, with `evaluate("1+1") = 2` and
`evaluate("(10-4)/3") = 2`; division by zero or malformed syntax fails with
an evaluation error distinguishable from the unsafe-expression error. -/
theorem c6_safe_math_eval :
    (∀ s : String, (∃ c ∈ s.toList, allowedChars.contains c = false) →
        safe_math_eval s = .error .forbiddenEval) ∧
    safe_math_eval "1+1" = .ok 2 ∧
    safe_math_eval "(10-4)/3" = .ok 2 ∧
    safe_math_eval "1;DROP" = .error .forbiddenEval ∧
    safe_math_eval "1/0" = .error .divByZero ∧
    PyErr.divByZero ≠ PyErr.forbiddenEval ∧
    PyErr.malformedExpr ≠ PyErr.forbiddenEval := by
  refine ⟨?_, by with_unfolding_all decide, by with_unfolding_all decide,
    by with_unfolding_all decide, by with_unfolding_all decide, by decide, by decide⟩
  intro s h
  obtain ⟨c, hc, hbad⟩ := h
  unfold safe_math_eval
  rw [if_neg]
  intro hall
  rw [List.all_eq_true] at hall
  have := hall c hc
  rw [hbad] at this
  exact Bool.false_ne_true this

/-- Witness for C6 at the concrete input `"1;DROP"`. -/
theorem c6_safe_math_eval_witness :
    (∃ c ∈ ("1;DROP" : String).toList, allowedChars.contains c = false) ∧
    safe_math_eval "1;DROP" = .error .forbiddenEval :=
  ⟨⟨';', by decide, by decide⟩,
    c6_safe_math_eval.1 "1;DROP" ⟨';', by decide, by decide⟩⟩

/-- **C5** — Name resolution returns the first candidate whose slug equals
the slug of the token; a present candidate list with no match (including a
present-but-empty list) fails with the role-specific not-found error; the
session-not-initialized error is raised exactly when the per-user candidate
list is absent.  The resolution example: `resolve("café", ["Cafe"])`
returns `"Cafe"`. -/
theorem c5_resolver :
    (∀ tok d cats, d.categories = some cats →
        get_category tok d =
          (match cats.find? (fun c => slugify c == slugify tok) with
           | some name => Except.ok name
           | none => Except.error PyErr.categoryError)) ∧
    (∀ tok d, get_category tok d = .error .startError ↔ d.categories = none) ∧
    (∀ tok d srcs, d.sourceAccounts = some srcs →
        get_source_account tok d =
          (match srcs.find? (fun c => slugify c == slugify tok) with
           | some name => Except.ok name
           | none => Except.error PyErr.sourceError)) ∧
    (∀ tok d, get_source_account tok d = .error .startError ↔ d.sourceAccounts = none) ∧
    (∀ tok d dsts, d.destinationAccounts = some dsts →
        get_destination_account tok d =
          (match dsts.find? (fun c => slugify c == slugify tok) with
           | some name => Except.ok name
           | none => Except.error PyErr.destinationError)) ∧
    (∀ tok d, get_destination_account tok d = .error .startError ↔
        d.destinationAccounts = none) ∧
    get_category "café" dCafe = .ok "Cafe" ∧
    (∀ tok, get_category tok ⟨none, some [], none, none, none⟩ =
        .error .categoryError) := by
  refine ⟨?_, ?_, ?_, ?_, ?_, ?_, by with_unfolding_all decide, ?_⟩
  · intro tok d cats h
    simp only [get_category, h, pyLookup_eq_find]
  · intro tok d
    constructor
    · intro h
      cases hc : d.categories with
      | none => rfl
      | some cats =>
        simp only [get_category, hc, pyLookup_eq_find] at h
        cases hf : cats.find? (fun c => slugify c == slugify tok) <;>
          rw [hf] at h <;> exact absurd h (by simp)
    · intro h; simp [get_category, h]
  · intro tok d srcs h
    simp only [get_source_account, h, pyLookup_eq_find]
  · intro tok d
    constructor
    · intro h
      cases hc : d.sourceAccounts with
      | none => rfl
      | some accs =>
        simp only [get_source_account, hc, pyLookup_eq_find] at h
        cases hf : accs.find? (fun c => slugify c == slugify tok) <;>
          rw [hf] at h <;> exact absurd h (by simp)
    · intro h; simp [get_source_account, h]
  · intro tok d dsts h
    simp only [get_destination_account, h, pyLookup_eq_find]
  · intro tok d
    constructor
    · intro h
      cases hc : d.destinationAccounts with
      | none => rfl
      | some accs =>
        simp only [get_destination_account, hc, pyLookup_eq_find] at h
        cases hf : accs.find? (fun c => slugify c == slugify tok) <;>
          rw [hf] at h <;> exact absurd h (by simp)
    · intro h; simp [get_destination_account, h]
  · intro tok; rfl

/-- Witness for C5 on the present candidate list `["Cafe"]`. -/
theorem c5_resolver_witness :
    dCafe.categories = some ["Cafe"] ∧
    get_category "café" dCafe =
      (match ["Cafe"].find? (fun c => slugify c == slugify "café") with
       | some name => Except.ok name
       | none => Except.error PyErr.categoryError) :=
  ⟨rfl, c5_resolver.1 "café" dCafe ["Cafe"] rfl⟩


/-- **C1** (amended) — The amount field of a parsed transaction is the value
of the evaluated amount expression exactly as written, including its sign:
the code applies no absolute value, so a negative-evaluating expression is
stored negative.  (The original claim — amount is always the absolute
value, hence non-negative — is refuted by `c1_counterexample`.) -/
theorem c1_amount_as_written (s : String) (d : UserData) (m : MatchGroups) (i : TxInfo)
    (hm : extractMatch s = some m) (h : extract_info s d = .ok i) :
    safe_math_eval m.g2 = .ok i.number := by
  obtain ⟨m2, hm2, hstep⟩ := extract_info_ok h
  rw [hm] at hm2
  obtain rfl : m = m2 := by injection hm2
  obtain ⟨src, dst, n, cat, assets, _, _, hnum, _, _, hi⟩ :=
    extractStep_ok_decomp m d i hstep
  rw [hi]
  exact hnum

/-- **C1** counterexample — `"Coffee -100"` parses successfully and stores
the amount `-100`, which is negative and differs from its absolute value,
contradicting "the amount field is the absolute value of the evaluated
amount expression (hence always non-negative)". -/
theorem c1_counterexample :
    extract_info "Coffee -100" dFull =
      .ok ⟨"Coffee", -100, none, some "Checking", none, "withdrawal"⟩ ∧
    (-100 : ℚ) < 0 ∧
    (-100 : ℚ) ≠ |(-100 : ℚ)| := by
  refine ⟨by with_unfolding_all decide, by norm_num, by norm_num⟩

/-- Witness for C1 (amended) at the concrete input `"Coffee -100"`. -/
theorem c1_witness :
    extractMatch "Coffee -100" = some ⟨"Coffee", "-100", none, none, none⟩ ∧
    extract_info "Coffee -100" dFull =
      .ok ⟨"Coffee", -100, none, some "Checking", none, "withdrawal"⟩ ∧
    safe_math_eval "-100" =
      .ok (TxInfo.number ⟨"Coffee", -100, none, some "Checking", none, "withdrawal"⟩) :=
  ⟨by with_unfolding_all decide, by with_unfolding_all decide,
    c1_amount_as_written "Coffee -100" dFull ⟨"Coffee", "-100", none, none, none⟩
      ⟨"Coffee", -100, none, some "Checking", none, "withdrawal"⟩
      (by with_unfolding_all decide) (by with_unfolding_all decide)⟩


/-- **C2** — The sign rule: when the amount expression starts with `+`,
token 4 resolves against destination accounts (defaulting to the configured
default account when absent) and token 5 against source accounts with no
default; otherwise the roles are swapped; token 3 always resolves against
categories. -/
theorem c2_sign_rule (s : String) (d : UserData) (m : MatchGroups) (i : TxInfo)
    (hm : extractMatch s = some m) (h : extract_info s d = .ok i) :
    (plusHead m.g2 = true →
      (∀ t, m.g4 = some t →
        ∃ v, get_destination_account t d = .ok v ∧ i.destination = some v) ∧
      (m.g4 = none → ∃ a, d.defaultAccount = some a ∧ i.destination = some a) ∧
      (∀ t, m.g5 = some t →
        ∃ v, get_source_account t d = .ok v ∧ i.source = some v) ∧
      (m.g5 = none → i.source = none)) ∧
    (plusHead m.g2 = false →
      (∀ t, m.g4 = some t →
        ∃ v, get_source_account t d = .ok v ∧ i.source = some v) ∧
      (m.g4 = none → ∃ a, d.defaultAccount = some a ∧ i.source = some a) ∧
      (∀ t, m.g5 = some t →
        ∃ v, get_destination_account t d = .ok v ∧ i.destination = some v) ∧
      (m.g5 = none → i.destination = none)) ∧
    (∀ t, m.g3 = some t → ∃ v, get_category t d = .ok v ∧ i.category = some v) ∧
    (m.g3 = none → i.category = none) := by
  obtain ⟨m2, hm2, hstep⟩ := extract_info_ok h
  rw [hm] at hm2
  obtain rfl : m = m2 := by injection hm2
  obtain ⟨src, dst, n, cat, assets, hplus, hminus, _, hcat, _, hi⟩ :=
    extractStep_ok_decomp m d i hstep
  have hisrc : i.source = src := by rw [hi]
  have hidst : i.destination = dst := by rw [hi]
  have hicat : i.category = cat := by rw [hi]
  refine ⟨?_, ?_, ?_, ?_⟩
  · intro hp
    obtain ⟨h4, h5⟩ := hplus hp
    refine ⟨?_, ?_, ?_, ?_⟩
    · intro t hg4
      rw [hg4] at h4
      obtain ⟨v, hv, hveq⟩ := h4
      exact ⟨v, hv, by rw [hidst, hveq]⟩
    · intro hg4
      rw [hg4] at h4
      obtain ⟨a, ha, haeq⟩ := h4
      exact ⟨a, ha, by rw [hidst, haeq]⟩
    · intro t hg5
      rw [hg5] at h5
      obtain ⟨v, hv, hveq⟩ := h5
      exact ⟨v, hv, by rw [hisrc, hveq]⟩
    · intro hg5
      rw [hg5] at h5
      rw [hisrc, h5]
  · intro hp
    obtain ⟨h4, h5⟩ := hminus hp
    refine ⟨?_, ?_, ?_, ?_⟩
    · intro t hg4
      rw [hg4] at h4
      obtain ⟨v, hv, hveq⟩ := h4
      exact ⟨v, hv, by rw [hisrc, hveq]⟩
    · intro hg4
      rw [hg4] at h4
      obtain ⟨a, ha, haeq⟩ := h4
      exact ⟨a, ha, by rw [hisrc, haeq]⟩
    · intro t hg5
      rw [hg5] at h5
      obtain ⟨v, hv, hveq⟩ := h5
      exact ⟨v, hv, by rw [hidst, hveq]⟩
    · intro hg5
      rw [hg5] at h5
      rw [hidst, h5]
  · intro t hg3
    rw [resolvedCat, hg3] at hcat
    obtain ⟨v, hv, hveq⟩ := hcat
    exact ⟨v, hv, by rw [hicat, hveq]⟩
  · intro hg3
    rw [resolvedCat, hg3] at hcat
    rw [hicat, hcat]

/-- **C3** — Direction inference: `withdrawal` iff the source is in the
asset list and the destination is not, `deposit` iff the source is not and
the destination is, `transfer` in the remaining (both / neither) cases. -/
theorem c3_direction (s : String) (d : UserData) (i : TxInfo) (assets : List String)
    (h : extract_info s d = .ok i) (ha : d.assetAccounts = some assets) :
    (i.type = "withdrawal" ↔
      memOpt i.source assets = true ∧ memOpt i.destination assets = false) ∧
    (i.type = "deposit" ↔
      memOpt i.source assets = false ∧ memOpt i.destination assets = true) ∧
    (i.type = "transfer" ↔ memOpt i.source assets = memOpt i.destination assets) := by
  obtain ⟨m, hm, hstep⟩ := extract_info_ok h
  obtain ⟨src, dst, n, cat, assets2, _, _, _, _, ha2, hi⟩ :=
    extractStep_ok_decomp m d i hstep
  rw [ha] at ha2
  obtain rfl : assets = assets2 := by injection ha2
  have hisrc : i.source = src := by rw [hi]
  have hidst : i.destination = dst := by rw [hi]
  have hitype : i.type =
      (if memOpt src assets && !memOpt dst assets then "withdrawal"
       else if !memOpt src assets && memOpt dst assets then "deposit"
       else "transfer") := by rw [hi]
  rw [hisrc, hidst, hitype]
  cases hsrcm : memOpt src assets <;> cases hdstm : memOpt dst assets <;> simp


def mSalary : MatchGroups := ⟨"Salary", "+1500", some "Income", some "Checking", none⟩

def iSalary : TxInfo := ⟨"Salary", 1500, some "Income", none, some "Checking", "deposit"⟩

def iCoffee : TxInfo := ⟨"Coffee", 9 / 2, some "Food", some "Checking", none, "withdrawal"⟩

set_option maxRecDepth 40000 in
/-- Witness for C2 at the spec example `"Salary +1500 Income Checking"`. -/
theorem c2_witness :
    extractMatch "Salary +1500 Income Checking" = some mSalary ∧
    extract_info "Salary +1500 Income Checking" dFull = .ok iSalary ∧
    plusHead mSalary.g2 = true ∧
    (∀ t, mSalary.g4 = some t →
      ∃ v, get_destination_account t dFull = .ok v ∧ iSalary.destination = some v) ∧
    (mSalary.g5 = none → iSalary.source = none) :=
  ⟨by with_unfolding_all decide, by with_unfolding_all decide, by decide,
    ((c2_sign_rule "Salary +1500 Income Checking" dFull mSalary iSalary
      (by with_unfolding_all decide) (by with_unfolding_all decide)).1 (by decide)).1,
    ((c2_sign_rule "Salary +1500 Income Checking" dFull mSalary iSalary
      (by with_unfolding_all decide) (by with_unfolding_all decide)).1 (by decide)).2.2.2⟩

set_option maxRecDepth 40000 in
/-- Witness for C3 at the spec example `"Coffee 4.5 Food Checking"`. -/
theorem c3_witness :
    extract_info "Coffee 4.5 Food Checking" dFull = .ok iCoffee ∧
    dFull.assetAccounts = some ["Checking"] ∧
    ((iCoffee.type = "withdrawal" ↔
      memOpt iCoffee.source ["Checking"] = true ∧
        memOpt iCoffee.destination ["Checking"] = false) ∧
     (iCoffee.type = "deposit" ↔
      memOpt iCoffee.source ["Checking"] = false ∧
        memOpt iCoffee.destination ["Checking"] = true) ∧
     (iCoffee.type = "transfer" ↔
      memOpt iCoffee.source ["Checking"] = memOpt iCoffee.destination ["Checking"])) :=
  ⟨by with_unfolding_all decide, rfl,
    c3_direction "Coffee 4.5 Food Checking" dFull iCoffee ["Checking"]
      (by with_unfolding_all decide) rfl⟩



/-- The specific chat message `echo_all` sends for each typed error. -/
def typedMsg : PyErr → String
  | .categoryError => categoryMsg
  | .sourceError => sourceMsg
  | .destinationError => destinationMsg
  | .startError => startMsg
  | _ => ""

theorem get_category_error_cases {tok : String} {d : UserData} {x : PyErr}
    (h : get_category tok d = .error x) :
    x = .categoryError ∨ x = .startError := by
  rw [get_category] at h
  split at h
  · right; injection h with h; exact h.symm
  · split at h
    · exact absurd h (by simp)
    · left; injection h with h; exact h.symm

theorem get_source_error_cases {tok : String} {d : UserData} {x : PyErr}
    (h : get_source_account tok d = .error x) :
    x = .sourceError ∨ x = .startError := by
  rw [get_source_account] at h
  split at h
  · right; injection h with h; exact h.symm
  · split at h
    · exact absurd h (by simp)
    · left; injection h with h; exact h.symm

theorem get_destination_error_cases {tok : String} {d : UserData} {x : PyErr}
    (h : get_destination_account tok d = .error x) :
    x = .destinationError ∨ x = .startError := by
  rw [get_destination_account] at h
  split at h
  · right; injection h with h; exact h.symm
  · split at h
    · exact absurd h (by simp)
    · left; injection h with h; exact h.symm

theorem resolveG4Dst_error {m : MatchGroups} {d : UserData} {x : PyErr}
    (h : resolveG4Dst m d = .error x) :
    x = .destinationError ∨ x = .startError ∨ x = .keyError := by
  rw [resolveG4Dst] at h
  split at h
  · rcases get_destination_error_cases (except_map_error.mp h) with h1 | h1
    · exact Or.inl h1
    · exact Or.inr (Or.inl h1)
  · split at h
    · exact absurd h (by simp)
    · right; right; injection h with h; exact h.symm

theorem resolveG4Src_error {m : MatchGroups} {d : UserData} {x : PyErr}
    (h : resolveG4Src m d = .error x) :
    x = .sourceError ∨ x = .startError ∨ x = .keyError := by
  rw [resolveG4Src] at h
  split at h
  · rcases get_source_error_cases (except_map_error.mp h) with h1 | h1
    · exact Or.inl h1
    · exact Or.inr (Or.inl h1)
  · split at h
    · exact absurd h (by simp)
    · right; right; injection h with h; exact h.symm

theorem resolveG5Src_error {m : MatchGroups} {d : UserData} {x : PyErr}
    (h : resolveG5Src m d = .error x) :
    x = .sourceError ∨ x = .startError := by
  rw [resolveG5Src] at h
  split at h
  · exact get_source_error_cases (except_map_error.mp h)
  · exact absurd h (by simp)

theorem resolveG5Dst_error {m : MatchGroups} {d : UserData} {x : PyErr}
    (h : resolveG5Dst m d = .error x) :
    x = .destinationError ∨ x = .startError := by
  rw [resolveG5Dst] at h
  split at h
  · exact get_destination_error_cases (except_map_error.mp h)
  · exact absurd h (by simp)

theorem resolveG3Cat_error {m : MatchGroups} {d : UserData} {x : PyErr}
    (h : resolveG3Cat m d = .error x) :
    x = .categoryError ∨ x = .startError := by
  rw [resolveG3Cat] at h
  split at h
  · exact get_category_error_cases (except_map_error.mp h)
  · exact absurd h (by simp)

theorem kindOf_error {d : UserData} {src dst : Option String} {x : PyErr}
    (h : kindOf d src dst = .error x) : x = .keyError := by
  rw [kindOf] at h
  split at h
  · injection h with h; exact h.symm
  · exact absurd h (by simp)

theorem resolveAccounts_error {m : MatchGroups} {d : UserData} {x : PyErr}
    (h : resolveAccounts m d = .error x) :
    x = .sourceError ∨ x = .destinationError ∨ x = .startError ∨ x = .keyError := by
  rw [resolveAccounts] at h
  by_cases hp : plusHead m.g2 = true
  · rw [if_pos hp] at h
    rcases except_bind_error.mp h with h1 | ⟨dst, _, h2⟩
    · rcases resolveG4Dst_error h1 with h3 | h3 | h3
      · exact Or.inr (Or.inl h3)
      · exact Or.inr (Or.inr (Or.inl h3))
      · exact Or.inr (Or.inr (Or.inr h3))
    · rcases except_bind_error.mp h2 with h1 | ⟨src, _, h3⟩
      · rcases resolveG5Src_error h1 with h4 | h4
        · exact Or.inl h4
        · exact Or.inr (Or.inr (Or.inl h4))
      · exact absurd h3 (by simp)
  · rw [if_neg hp] at h
    rcases except_bind_error.mp h with h1 | ⟨src, _, h2⟩
    · rcases resolveG4Src_error h1 with h3 | h3 | h3
      · exact Or.inl h3
      · exact Or.inr (Or.inr (Or.inl h3))
      · exact Or.inr (Or.inr (Or.inr h3))
    · rcases except_bind_error.mp h2 with h1 | ⟨dst, _, h3⟩
      · rcases resolveG5Dst_error h1 with h4 | h4
        · exact Or.inr (Or.inl h4)
        · exact Or.inr (Or.inr (Or.inl h4))
      · exact absurd h3 (by simp)

theorem safe_math_eval_guarded_error {g : String}
    (hall : g.toList.all isAmountChar = true) {x : PyErr}
    (h : safe_math_eval g = .error x) :
    x = .divByZero ∨ x = .malformedExpr := by
  have hallowed : g.toList.all (fun c => allowedChars.contains c) = true := by
    rw [List.all_eq_true] at hall ⊢
    intro c hc
    exact amount_mem_allowed c (hall c hc)
  rw [safe_math_eval, if_pos hallowed] at h
  cases he : evalArith g with
  | ok v => rw [he] at h; exact absurd h (by simp [Except.mapError])
  | error e =>
    rw [he] at h
    simp only [Except.mapError] at h
    injection h with h
    cases e with
    | divByZero => left; exact h.symm
    | malformedExpr => right; exact h.symm

/-- Classification of the errors `extractStep` can produce when the amount
group consists of amount-class characters (as the pattern guarantees): the
allow-list error is unreachable. -/
theorem extractStep_error_cases {m : MatchGroups} {d : UserData} {e : PyErr}
    (hg2 : m.g2.toList.all isAmountChar = true)
    (h : extractStep m d = .error e) :
    e ≠ PyErr.forbiddenEval := by
  rw [extractStep] at h
  rcases except_bind_error.mp h with hacc | ⟨sd, _, h2⟩
  · rcases resolveAccounts_error hacc with h1 | h1 | h1 | h1 <;> subst h1 <;> decide
  · rcases except_bind_error.mp h2 with hnum | ⟨n, _, h3⟩
    · rcases safe_math_eval_guarded_error hg2 hnum with h1 | h1 <;> subst h1 <;> decide
    · rcases except_bind_error.mp h3 with hcat | ⟨cat, _, h4⟩
      · rcases resolveG3Cat_error hcat with h1 | h1 <;> subst h1 <;> decide
      · rcases except_bind_error.mp h4 with hkind | ⟨k, _, h5⟩
        · have h1 := kindOf_error hkind; subst h1; decide
        · exact absurd h5 (by simp)


/-- **C4** (amended) — Every parse failure is one of: a typed error
(category / source / destination not found, or session not initialized),
each of which the chat layer maps to exactly one specific message; or an
untyped error — a raw `KeyError` from the default-account or asset-list
dictionary access, or a `ZeroDivisionError` / `SyntaxError` from amount
evaluation — which escapes `echo_all` uncaught.  The allow-list error is
unreachable from the parser.  (The original claim — every parse failure is
typed and none escapes unhandled — is refuted by `c4_counterexample`.) -/
theorem c4_error_taxonomy (s : String) (d : UserData) (e : PyErr)
    (h : extract_info s d = .error e) :
    e ≠ PyErr.forbiddenEval ∧
    (e.isTyped = true → echo_all s d = .message (typedMsg e)) ∧
    (e.isTyped = false → echo_all s d = .crash e) ∧
    [categoryMsg, sourceMsg, destinationMsg, startMsg, invalidMsg].Nodup := by
  refine ⟨?_, ?_, ?_, by decide⟩
  · obtain ⟨m, hm, hstep⟩ := extract_info_error h
    exact extractStep_error_cases (extractMatch_groups hm).2.2.2.1 hstep
  · intro ht
    rw [echo_all, h]
    cases e <;> first
      | rfl
      | exact absurd ht (by decide)
  · intro ht
    rw [echo_all, h]
    cases e <;> first
      | rfl
      | exact absurd ht (by decide)

/-- **C4** counterexample — on `"Coffee 1/0"` with a fully populated cache
the parser raises the untyped `ZeroDivisionError`, which `echo_all` does not
catch: the failure escapes as an unhandled crash, contradicting "no parse
failure ever escapes as an untyped, unhandled error". -/
theorem c4_counterexample :
    extract_info "Coffee 1/0" dFull = .error .divByZero ∧
    PyErr.isTyped .divByZero = false ∧
    echo_all "Coffee 1/0" dFull = .crash .divByZero :=
  ⟨by with_unfolding_all decide, by decide, by with_unfolding_all decide⟩

/-- Witness for C4 (amended) at the concrete input `"Coffee 1/0"`. -/
theorem c4_witness :
    extract_info "Coffee 1/0" dFull = .error .divByZero ∧
    (PyErr.divByZero ≠ PyErr.forbiddenEval ∧
      (PyErr.isTyped .divByZero = false → echo_all "Coffee 1/0" dFull = .crash .divByZero)) :=
  ⟨by with_unfolding_all decide,
    (c4_error_taxonomy "Coffee 1/0" dFull .divByZero (by with_unfolding_all decide)).1,
    (c4_error_taxonomy "Coffee 1/0" dFull .divByZero (by with_unfolding_all decide)).2.2.1⟩



/-- **C7** (amended) — The parser returns the `NoMatch` sentinel exactly
when the pattern fails to match, where the pattern's `$` anchor accepts
end-of-input or a position just before a single final newline
(`"Coffee 5\n"` matches with the same groups as `"Coffee 5"`, while
`"Coffee 5 \n"` and `"Coffee 5\n\n"` do not match).  In a match, the
amount group is a nonempty run of amount-class characters, the
up-to-three trailing tokens are nonempty runs of the letter class, and
the description group is a nonempty run over the class
letters-or-whitespace — which is wider than the "one or more alphabetic
words" of the original claim: the raw description may be whitespace-only
(stripping to an empty description) and the letter class also contains
the Latin-1 symbols `×` and `÷` (see `c7_counterexample`).
`"just words no amount"` yields `NoMatch`. -/
theorem c7_amended :
    (∀ (s : String) (d : UserData),
      extract_info s d = .noMatch ↔ extractMatch s = none) ∧
    (∀ (s : String) (m : MatchGroups), extractMatch s = some m →
      m.g1.toList ≠ [] ∧ m.g1.toList.all isDescChar = true ∧
      m.g2.toList ≠ [] ∧ m.g2.toList.all isAmountChar = true ∧
      (∀ t, m.g3 = some t ∨ m.g4 = some t ∨ m.g5 = some t →
        t.toList ≠ [] ∧ t.toList.all isLetterClass = true)) ∧
    extractMatch "Coffee 5\n" = some ⟨"Coffee", "5", none, none, none⟩ ∧
    extractMatch "Coffee 5 \n" = none ∧
    extractMatch "Coffee 5\n\n" = none ∧
    (∀ d : UserData, extract_info "just words no amount" d = .noMatch) := by
  have hjust : extractMatch "just words no amount" = none := by
    with_unfolding_all decide
  refine ⟨?_, fun s m h => extractMatch_groups h,
    by with_unfolding_all decide, by with_unfolding_all decide,
    by with_unfolding_all decide, ?_⟩
  · intro s d
    constructor
    · intro h
      rw [extract_info] at h
      split at h
      · assumption
      · split at h
        · exact absurd h (by simp)
        · exact absurd h (by simp)
    · intro h
      rw [extract_info, h]
  · intro d
    rw [extract_info, hjust]

/-- **C7** counterexample — `"  5"` (whitespace description) and `"÷ 1"`
(symbol description) both fail the grammar shape as the spec words it
(`specGrammar`), yet the parser accepts them instead of returning
`NoMatch`; in particular an accepted line need not have any alphabetic
description word. -/
theorem c7_counterexample :
    extract_info "  5" dFull =
      .ok ⟨"", 5, none, some "Checking", none, "withdrawal"⟩ ∧
    specGrammar "  5" = false ∧
    extract_info "÷ 1" dFull =
      .ok ⟨"÷", 1, none, some "Checking", none, "withdrawal"⟩ ∧
    specGrammar "÷ 1" = false :=
  ⟨by with_unfolding_all decide, by with_unfolding_all decide,
    by with_unfolding_all decide, by with_unfolding_all decide⟩

/-- Witness for C7 (amended) at the concrete input `"a 1 b"`. -/
theorem c7_witness :
    extractMatch "a 1 b" = some ⟨"a", "1", some "b", none, none⟩ ∧
    (("a" : String).toList ≠ [] ∧ ("a" : String).toList.all isDescChar = true ∧
      ("1" : String).toList ≠ [] ∧ ("1" : String).toList.all isAmountChar = true ∧
      (∀ t, (some "b" : Option String) = some t ∨ (none : Option String) = some t ∨
          (none : Option String) = some t →
        t.toList ≠ [] ∧ t.toList.all isLetterClass = true)) :=
  ⟨by with_unfolding_all decide,
    c7_amended.2.1 "a 1 b" ⟨"a", "1", some "b", none, none⟩
      (by with_unfolding_all decide)⟩


/-- **C10** — A chat message whose first character is a digit is dispatched
to `echo_transfer`, which never invokes the grammar parser (`extract_info`
does not occur in its definition): with exactly three space-separated
parts it creates a transaction of kind `transfer` and description
`Transfer`, resolving part 1 against source accounts and part 2 against
destination accounts with no asset-membership condition; any other number
of parts yields the generic invalid-input reply. -/
theorem c10_digit_transfer (text : String) (d : UserData) (c : Char)
    (restc : List Char) (htext : text.toList = c :: restc) (hc : c.isDigit = true) :
    handle_message text d = echo_transfer text d ∧
    ((text.splitOn " ").length ≠ 3 → handle_message text d = .message invalidMsg) ∧
    (∀ t0 t1 t2 src dst n, text.splitOn " " = [t0, t1, t2] →
      get_source_account t1 d = .ok src →
      get_destination_account t2 d = .ok dst →
      safe_math_eval t0 = .ok n →
      handle_message text d =
        .created ⟨"Transfer", n, none, some src, some dst, "transfer"⟩) := by
  have hdisp : handle_message text d = echo_transfer text d := by
    rw [handle_message, htext]
    simp only [hc, if_true]
  refine ⟨hdisp, ?_, ?_⟩
  · intro hlen
    rw [hdisp, echo_transfer]
    rw [if_neg]
    simp only [beq_iff_eq]
    exact hlen
  · intro t0 t1 t2 src dst n hparts hsrc hdst hn
    rw [hdisp, echo_transfer, hparts]
    have hcond : ([t0, t1, t2].length == 3) = true := by simp
    rw [if_pos hcond]
    rw [show get_source_account ([t0, t1, t2].getD 1 "") d = Except.ok src from hsrc,
      show get_destination_account ([t0, t1, t2].getD 2 "") d = Except.ok dst from hdst,
      show safe_math_eval ([t0, t1, t2].getD 0 "") = Except.ok n from hn]
    rfl

def iTransfer : TxInfo :=
  ⟨"Transfer", 100, none, some "Checking", some "Savings", "transfer"⟩

set_option maxRecDepth 40000 in
/-- Witness for C10 at the spec example `"100 Checking Savings"`, where
both accounts are asset accounts and the kind is still `transfer`. -/
theorem c10_witness :
    ("100 Checking Savings" : String).toList =
      '1' :: "00 Checking Savings".toList ∧
    Char.isDigit '1' = true ∧
    ("100 Checking Savings" : String).splitOn " " = ["100", "Checking", "Savings"] ∧
    get_source_account "Checking" dTransfer = .ok "Checking" ∧
    get_destination_account "Savings" dTransfer = .ok "Savings" ∧
    safe_math_eval "100" = .ok 100 ∧
    handle_message "100 Checking Savings" dTransfer = .created iTransfer :=
  ⟨rfl, by decide, by with_unfolding_all decide, by with_unfolding_all decide,
    by with_unfolding_all decide, by with_unfolding_all decide,
    (c10_digit_transfer "100 Checking Savings" dTransfer '1' "00 Checking Savings".toList
      rfl (by decide)).2.2 "100" "Checking" "Savings" "Checking" "Savings" 100
      (by with_unfolding_all decide) (by with_unfolding_all decide)
      (by with_unfolding_all decide) (by with_unfolding_all decide)⟩



/-! ### JSON serialization (`bot/database.py`)

`save_data` stores each snapshot field as its `json.dumps` text in a TEXT
column and `get_data` decodes with `json.loads`.  The encoder below models
CPython `json.dumps` with its defaults (`ensure_ascii=True`, separators
", " and ": "): strings are double-quoted with `\"` `\\` `\n` `\r` `\t`
`\b` `\f` short escapes and `\uXXXX` (with UTF-16 surrogate pairs above
the BMP) for every other character outside printable ASCII; the decoder
models `json.loads` on such documents. -/

def toHexDigit (n : Nat) : Char :=
  if n < 10 then Char.ofNat (48 + n) else Char.ofNat (87 + n)

def hex4 (n : Nat) : List Char :=
  [toHexDigit (n / 4096 % 16), toHexDigit (n / 256 % 16),
    toHexDigit (n / 16 % 16), toHexDigit (n % 16)]

def hexVal (c : Char) : Option Nat :=
  if 48 ≤ c.toNat ∧ c.toNat ≤ 57 then some (c.toNat - 48)
  else if 97 ≤ c.toNat ∧ c.toNat ≤ 102 then some (c.toNat - 87)
  else if 65 ≤ c.toNat ∧ c.toNat ≤ 70 then some (c.toNat - 55)
  else none

/-- One character of a JSON string, escaped as `json.dumps` emits it. -/
def escChar (c : Char) : List Char :=
  if c = '"' then ['\\', '"']
  else if c = '\\' then ['\\', '\\']
  else if c = '\n' then ['\\', 'n']
  else if c = '\r' then ['\\', 'r']
  else if c = '\t' then ['\\', 't']
  else if c = '\x08' then ['\\', 'b']
  else if c = '\x0c' then ['\\', 'f']
  else if c.toNat < 32 ∨ 126 < c.toNat then
    if c.toNat < 65536 then '\\' :: 'u' :: hex4 c.toNat
    else
      ('\\' :: 'u' :: hex4 (55296 + (c.toNat - 65536) / 1024)) ++
        ('\\' :: 'u' :: hex4 (56320 + (c.toNat - 65536) % 1024))
  else [c]

/-- A JSON string literal for `s`, quotes included. -/
def encodeJString (s : String) : List Char :=
  '"' :: s.toList.flatMap escChar ++ ['"']

/-- One scan step inside a JSON string literal: the closing quote, one
decoded character (possibly from an escape, including a surrogate pair), or
a syntax error.  Kept non-recursive so that its unfolding stays cheap. -/
inductive ScanTok where
  | done (rest : List Char)
  | ch (c : Char) (rest : List Char)
  | bad
deriving DecidableEq, Repr

/-- The low half of a UTF-16 surrogate pair: expects a second `\u` escape
whose value lies in the low-surrogate range and combines it with the high
half `n`. -/
def scanPair (n : Nat) (r2 : List Char) : ScanTok :=
  match r2 with
  | e2 :: u2 :: g1 :: g2 :: g3 :: g4 :: r3 =>
    if e2 = '\\' ∧ u2 = 'u' then
      match hexVal g1, hexVal g2, hexVal g3, hexVal g4 with
      | some a2, some b2, some c3, some d3 =>
        let m2 := a2 * 4096 + b2 * 256 + c3 * 16 + d3
        if 56320 ≤ m2 ∧ m2 ≤ 57343 then
          .ch (Char.ofNat (65536 + (n - 55296) * 1024 + (m2 - 56320))) r3
        else .bad
      | _, _, _, _ => .bad
    else .bad
  | _ => .bad

def scan1 (l : List Char) : ScanTok :=
  match l with
  | [] => .bad
  | c :: rest =>
    if c = '"' then .done rest
    else if c = '\\' then
      match rest with
      | [] => .bad
      | e :: r =>
        if e = '"' then .ch '"' r
        else if e = '\\' then .ch '\\' r
        else if e = '/' then .ch '/' r
        else if e = 'n' then .ch '\n' r
        else if e = 'r' then .ch '\r' r
        else if e = 't' then .ch '\t' r
        else if e = 'b' then .ch '\x08' r
        else if e = 'f' then .ch '\x0c' r
        else if e = 'u' then
          match r with
          | h1 :: h2 :: h3 :: h4 :: r2 =>
            match hexVal h1, hexVal h2, hexVal h3, hexVal h4 with
            | some a, some b, some c2, some d2 =>
              let n := a * 4096 + b * 256 + c2 * 16 + d2
              if 55296 ≤ n ∧ n ≤ 56319 then scanPair n r2
              else if 56320 ≤ n ∧ n ≤ 57343 then .bad
              else .ch (Char.ofNat n) r2
            | _, _, _, _ => .bad
          | _ => .bad
        else .bad
    else if c.toNat < 32 then .bad
    else .ch c rest

/-- Body of a JSON string literal up to and past its closing quote, by
iterating `scan1`.  The fuel only serves termination: every `ch` step
consumes at least one input character, so `length + 1` fuel always
suffices. -/
def parseStrBodyF : Nat → List Char → Option (List Char × List Char)
  | 0, _ => none
  | f + 1, l =>
    match scan1 l with
    | .done rest => some ([], rest)
    | .ch c rest => (parseStrBodyF f rest).map (fun p => (c :: p.1, p.2))
    | .bad => none

def parseStrBody (l : List Char) : Option (List Char × List Char) :=
  parseStrBodyF (l.length + 1) l

theorem hexVal_toHexDigit (d : Nat) (h : d < 16) : hexVal (toHexDigit d) = some d := by
  have hd : d = 0 ∨ d = 1 ∨ d = 2 ∨ d = 3 ∨ d = 4 ∨ d = 5 ∨ d = 6 ∨ d = 7 ∨ d = 8 ∨
      d = 9 ∨ d = 10 ∨ d = 11 ∨ d = 12 ∨ d = 13 ∨ d = 14 ∨ d = 15 := by omega
  rcases hd with rfl | rfl | rfl | rfl | rfl | rfl | rfl | rfl | rfl | rfl | rfl | rfl |
    rfl | rfl | rfl | rfl <;> decide

theorem scan1_quote (l : List Char) : scan1 ('"' :: l) = .done l := by
  simp [scan1]

theorem scan1_u_bmp (n : Nat) (l : List Char) (hn : n < 65536)
    (hs1 : ¬(55296 ≤ n ∧ n ≤ 56319)) (hs2 : ¬(56320 ≤ n ∧ n ≤ 57343)) :
    scan1 ('\\' :: 'u' :: hex4 n ++ l) = .ch (Char.ofNat n) l := by
  have d1 : n / 4096 % 16 < 16 := Nat.mod_lt _ (by omega)
  have d2 : n / 256 % 16 < 16 := Nat.mod_lt _ (by omega)
  have d3 : n / 16 % 16 < 16 := Nat.mod_lt _ (by omega)
  have d4 : n % 16 < 16 := Nat.mod_lt _ (by omega)
  have hrec : n / 4096 % 16 * 4096 + n / 256 % 16 * 256 + n / 16 % 16 * 16 + n % 16 = n := by
    omega
  simp [hex4, List.cons_append, List.nil_append, scan1,
    hexVal_toHexDigit _ d1, hexVal_toHexDigit _ d2, hexVal_toHexDigit _ d3,
    hexVal_toHexDigit _ d4, hrec, hs1, hs2]


theorem scanPair_enc (n lo : Nat) (l : List Char)
    (hlo1 : 56320 ≤ lo) (hlo2 : lo ≤ 57343) :
    scanPair n ('\\' :: 'u' :: hex4 lo ++ l) =
      .ch (Char.ofNat (65536 + (n - 55296) * 1024 + (lo - 56320))) l := by
  have f1 : lo / 4096 % 16 < 16 := Nat.mod_lt _ (by omega)
  have f2 : lo / 256 % 16 < 16 := Nat.mod_lt _ (by omega)
  have f3 : lo / 16 % 16 < 16 := Nat.mod_lt _ (by omega)
  have f4 : lo % 16 < 16 := Nat.mod_lt _ (by omega)
  have hrec : lo / 4096 % 16 * 4096 + lo / 256 % 16 * 256 + lo / 16 % 16 * 16 + lo % 16 = lo := by
    omega
  simp [hex4, List.cons_append, List.nil_append, scanPair,
    hexVal_toHexDigit _ f1, hexVal_toHexDigit _ f2, hexVal_toHexDigit _ f3,
    hexVal_toHexDigit _ f4, hrec, hlo1, hlo2]

theorem scan1_u_high (hi : Nat) (r2 : List Char) (h1 : 55296 ≤ hi) (h2 : hi ≤ 56319) :
    scan1 ('\\' :: 'u' :: hex4 hi ++ r2) = scanPair hi r2 := by
  have e1 : hi / 4096 % 16 < 16 := Nat.mod_lt _ (by omega)
  have e2 : hi / 256 % 16 < 16 := Nat.mod_lt _ (by omega)
  have e3 : hi / 16 % 16 < 16 := Nat.mod_lt _ (by omega)
  have e4 : hi % 16 < 16 := Nat.mod_lt _ (by omega)
  have hrec : hi / 4096 % 16 * 4096 + hi / 256 % 16 * 256 + hi / 16 % 16 * 16 + hi % 16 = hi := by
    omega
  simp [hex4, List.cons_append, List.nil_append, scan1,
    hexVal_toHexDigit _ e1, hexVal_toHexDigit _ e2, hexVal_toHexDigit _ e3,
    hexVal_toHexDigit _ e4, hrec, h1, h2]

theorem scan1_esc (c : Char) (l : List Char) : scan1 (escChar c ++ l) = .ch c l := by
  by_cases h1 : c = '"'
  · subst h1; simp [escChar, scan1]
  by_cases h2 : c = '\\'
  · subst h2; simp [escChar, scan1]
  by_cases h3 : c = '\n'
  · subst h3; simp [escChar, scan1]
  by_cases h4 : c = '\r'
  · subst h4; simp [escChar, scan1]
  by_cases h5 : c = '\t'
  · subst h5; simp [escChar, scan1]
  by_cases h6 : c = '\x08'
  · subst h6; simp [escChar, scan1]
  by_cases h7 : c = '\x0c'
  · subst h7; simp [escChar, scan1]
  by_cases h8 : c.toNat < 32 ∨ 126 < c.toNat
  · have hvalid : c.toNat < 55296 ∨ (57343 < c.toNat ∧ c.toNat < 1114112) := c.valid
    by_cases h9 : c.toNat < 65536
    · have hesc : escChar c = '\\' :: 'u' :: hex4 c.toNat := by
        rw [escChar, if_neg h1, if_neg h2, if_neg h3, if_neg h4, if_neg h5, if_neg h6,
          if_neg h7, if_pos h8, if_pos h9]
      rw [hesc, scan1_u_bmp c.toNat l h9 (by omega) (by omega), Char.ofNat_toNat]
    · have hesc : escChar c =
          ('\\' :: 'u' :: hex4 (55296 + (c.toNat - 65536) / 1024)) ++
            ('\\' :: 'u' :: hex4 (56320 + (c.toNat - 65536) % 1024)) := by
        rw [escChar, if_neg h1, if_neg h2, if_neg h3, if_neg h4, if_neg h5, if_neg h6,
          if_neg h7, if_pos h8, if_neg h9]
      have hq : (c.toNat - 65536) / 1024 ≤ 1023 := by omega
      have hm : (c.toNat - 65536) % 1024 ≤ 1023 := by omega
      rw [hesc, List.append_assoc,
        scan1_u_high _ _ (by omega) (by omega),
        scanPair_enc _ _ _ (by omega) (by omega)]
      have hcomb : 65536 + (55296 + (c.toNat - 65536) / 1024 - 55296) * 1024 +
          (56320 + (c.toNat - 65536) % 1024 - 56320) = c.toNat := by
        omega
      rw [hcomb, Char.ofNat_toNat]
  · have hesc : escChar c = [c] := by
      rw [escChar, if_neg h1, if_neg h2, if_neg h3, if_neg h4, if_neg h5, if_neg h6,
        if_neg h7, if_neg h8]
    have h32 : ¬(c.toNat < 32) := by omega
    rw [hesc]
    simp [scan1, h1, h2, h32]


theorem psbF_round (cs : List Char) : ∀ (tail : List Char) (fuel : Nat),
    cs.length < fuel →
    parseStrBodyF fuel (cs.flatMap escChar ++ '"' :: tail) = some (cs, tail) := by
  induction cs with
  | nil =>
    intro tail fuel hf
    cases fuel with
    | zero => omega
    | succ f => simp [parseStrBodyF, scan1_quote]
  | cons c cs ih =>
    intro tail fuel hf
    cases fuel with
    | zero => exact absurd hf (by omega)
    | succ f =>
      have hlen : cs.length < f := by
        rw [List.length_cons] at hf
        omega
      simp only [List.flatMap_cons, List.append_assoc]
      rw [parseStrBodyF, scan1_esc]
      simp [ih tail f hlen]

theorem escChar_length_pos (c : Char) : 0 < (escChar c).length := by
  rw [escChar]
  repeat' split
  all_goals simp [hex4]

theorem flatMap_escChar_length (cs : List Char) :
    cs.length ≤ (cs.flatMap escChar).length := by
  induction cs with
  | nil => simp
  | cons c cs ih =>
    rw [List.flatMap_cons, List.length_append, List.length_cons]
    have := escChar_length_pos c
    omega

/-- A JSON string literal (opening quote onward): decoded string plus the
remaining input. -/
def parseStrLit (l : List Char) : Option (String × List Char) :=
  match l with
  | '"' :: r => (parseStrBody r).map (fun p => (String.mk p.1, p.2))
  | _ => none

theorem parseStrLit_enc (s : String) (tail : List Char) :
    parseStrLit (encodeJString s ++ tail) = some (s, tail) := by
  have hshape : encodeJString s ++ tail = '"' :: (s.toList.flatMap escChar ++ '"' :: tail) := by
    rw [encodeJString]
    simp [List.append_assoc]
  rw [hshape, parseStrLit]
  have hfuel : s.toList.length < (s.toList.flatMap escChar ++ '"' :: tail).length + 1 := by
    rw [List.length_append, List.length_cons]
    have := flatMap_escChar_length s.toList
    omega
  rw [parseStrBody, psbF_round s.toList tail _ hfuel]
  rfl

/-- JSON document whitespace. -/
def jsonWs (c : Char) : Bool :=
  c = ' ' || c = '\t' || c = '\n' || c = '\r'

def skipWs (l : List Char) : List Char :=
  l.dropWhile jsonWs

/-- The element text of `json.dumps` for a list of strings: elements joined
by the default separator ", ". -/
def dumpElems : List String → List Char
  | [] => []
  | [x] => encodeJString x
  | x :: y :: xs => encodeJString x ++ ',' :: ' ' :: dumpElems (y :: xs)

/-- `json.dumps` of a list of strings. -/
def dumpsStrList (xs : List String) : List Char :=
  '[' :: dumpElems xs ++ [']']

/-- Parse one or more comma-separated string literals up to the closing
bracket.  Fuel counts elements; one unit per element always suffices. -/
def parseListElems : Nat → List Char → Option (List String × List Char)
  | 0, _ => none
  | fuel + 1, l =>
    match parseStrLit (skipWs l) with
    | none => none
    | some (s, r) =>
      match skipWs r with
      | ',' :: r3 => (parseListElems fuel r3).map (fun p => (s :: p.1, p.2))
      | ']' :: r3 => some ([s], r3)
      | _ => none

def expectBracket (l : List Char) : Option (List Char) :=
  match skipWs l with
  | '[' :: r => some r
  | _ => none

/-- `json.loads` of a document holding a list of strings. -/
def loadsStrList (l : List Char) : Option (List String) :=
  match expectBracket l with
  | none => none
  | some r =>
    match skipWs r with
    | ']' :: r2 => if (skipWs r2).isEmpty then some [] else none
    | _ =>
      match parseListElems (r.length + 1) r with
      | some p => if (skipWs p.2).isEmpty then some p.1 else none
      | none => none

theorem skipWs_space (l : List Char) : skipWs (' ' :: l) = skipWs l := by
  simp [skipWs, List.dropWhile_cons, jsonWs]

theorem skipWs_not_ws {c : Char} (l : List Char) (h : jsonWs c = false) :
    skipWs (c :: l) = c :: l := by
  simp [skipWs, List.dropWhile_cons, h]

theorem skipWs_enc (s : String) (t : List Char) :
    skipWs (encodeJString s ++ t) = encodeJString s ++ t := by
  rw [encodeJString]
  simp only [List.cons_append]
  exact skipWs_not_ws _ (by decide)

theorem parseListElems_ws (f : Nat) (l : List Char) :
    parseListElems (f + 1) (' ' :: l) = parseListElems (f + 1) l := by
  simp only [parseListElems, skipWs_space]

theorem parseListElems_round (xs : List String) : ∀ (x : String) (tail : List Char)
    (fuel : Nat), xs.length < fuel →
    parseListElems fuel (dumpElems (x :: xs) ++ ']' :: tail) = some (x :: xs, tail) := by
  induction xs with
  | nil =>
    intro x tail fuel hf
    cases fuel with
    | zero => omega
    | succ f =>
      rw [parseListElems]
      rw [show dumpElems [x] ++ ']' :: tail = encodeJString x ++ ']' :: tail from rfl]
      rw [skipWs_enc, parseStrLit_enc]
      simp [skipWs, List.dropWhile_cons, jsonWs]
  | cons y xs ih =>
    intro x tail fuel hf
    cases fuel with
    | zero => omega
    | succ f =>
      have hstep : dumpElems (x :: y :: xs) ++ ']' :: tail =
          encodeJString x ++ ',' :: ' ' :: (dumpElems (y :: xs) ++ ']' :: tail) := by
        rw [dumpElems]
        simp [List.append_assoc]
      rw [parseListElems, hstep, skipWs_enc, parseStrLit_enc]
      have hf2 : xs.length < f := by
        rw [List.length_cons] at hf
        omega
      cases f with
      | zero => omega
      | succ f2 =>
        simp only [skipWs_not_ws _ (show jsonWs ',' = false by decide)]
        simp [parseListElems_ws, ih y tail (f2 + 1) hf2]

theorem encodeJString_length (s : String) : 2 ≤ (encodeJString s).length := by
  rw [encodeJString]
  simp [List.length_append]

theorem dumpElems_count (xs : List String) : ∀ x : String,
    (x :: xs).length ≤ (dumpElems (x :: xs)).length := by
  induction xs with
  | nil =>
    intro x
    rw [show dumpElems [x] = encodeJString x from rfl]
    have := encodeJString_length x
    simp only [List.length_cons, List.length_nil]
    omega
  | cons y xs ih =>
    intro x
    rw [show dumpElems (x :: y :: xs) =
      encodeJString x ++ ',' :: ' ' :: dumpElems (y :: xs) from rfl]
    have h1 := encodeJString_length x
    have h2 := ih y
    simp only [List.length_cons, List.length_append] at *
    omega

theorem loadsStrList_round (xs : List String) :
    loadsStrList (dumpsStrList xs) = some xs := by
  cases xs with
  | nil => rfl
  | cons x xs =>
    have hbr : expectBracket (dumpsStrList (x :: xs)) =
        some (dumpElems (x :: xs) ++ [']']) := by
      rw [dumpsStrList, expectBracket]
      simp only [List.cons_append]
      rw [skipWs_not_ws _ (show jsonWs '[' = false by decide)]
      rfl
    have hhead : ∃ t, dumpElems (x :: xs) = '"' :: t := by
      cases xs with
      | nil => exact ⟨_, rfl⟩
      | cons y ys => exact ⟨_, rfl⟩
    obtain ⟨t, ht⟩ := hhead
    have hskip : skipWs (dumpElems (x :: xs) ++ [']']) = '"' :: (t ++ [']']) := by
      rw [ht]
      simp only [List.cons_append]
      exact skipWs_not_ws _ (by decide)
    have hparse : parseListElems ((dumpElems (x :: xs)).length + 1 + 1)
        (dumpElems (x :: xs) ++ [']']) = some (x :: xs, []) := by
      have hfuel2 : xs.length < (dumpElems (x :: xs)).length + 1 + 1 := by
        have := dumpElems_count xs x
        simp only [List.length_cons] at *
        omega
      exact parseListElems_round xs x [] _ hfuel2
    rw [loadsStrList, hbr]
    simp only [hskip]
    simp [hparse, skipWs]

/-- The pair text of `json.dumps` for a string-to-string dict: `"k": "v"`
items joined by ", ". -/
def dumpPairs : List (String × String) → List Char
  | [] => []
  | [(k, v)] => encodeJString k ++ (':' :: ' ' :: encodeJString v)
  | (k, v) :: p :: ps =>
    encodeJString k ++ (':' :: ' ' :: (encodeJString v ++ (',' :: ' ' :: dumpPairs (p :: ps))))

/-- `json.dumps` of a string-to-string dict (insertion order). -/
def dumpsStrDict (xs : List (String × String)) : List Char :=
  '{' :: (dumpPairs xs ++ ['}'])

/-- Parse one or more comma-separated `"k": "v"` pairs up to the closing
brace. -/
def parsePairs : Nat → List Char → Option (List (String × String) × List Char)
  | 0, _ => none
  | fuel + 1, l =>
    match parseStrLit (skipWs l) with
    | none => none
    | some (k, r) =>
      match skipWs r with
      | ':' :: r2 =>
        match parseStrLit (skipWs r2) with
        | none => none
        | some (v, r3) =>
          match skipWs r3 with
          | ',' :: r4 => (parsePairs fuel r4).map (fun p => ((k, v) :: p.1, p.2))
          | '}' :: r4 => some ([(k, v)], r4)
          | _ => none
      | _ => none

/-- Assignment `d[k] = v` on a Python dict modelled as an ordered
association list: updating an existing key keeps its position, a new key
is appended. -/
def insertJ (m : List (String × String)) (k v : String) : List (String × String) :=
  if m.any (fun p => p.1 == k) then
    m.map (fun p => if p.1 == k then (k, v) else p)
  else m ++ [(k, v)]

/-- `dict(pairs)` as built by the JSON object decoder: repeated assignment
(later duplicate keys overwrite earlier values). -/
def dictOfPairs (ps : List (String × String)) : List (String × String) :=
  ps.foldl (fun m kv => insertJ m kv.1 kv.2) []

def expectBrace (l : List Char) : Option (List Char) :=
  match skipWs l with
  | '{' :: r => some r
  | _ => none

/-- `json.loads` of a document holding a string-to-string object. -/
def loadsStrDict (l : List Char) : Option (List (String × String)) :=
  match expectBrace l with
  | none => none
  | some r =>
    match skipWs r with
    | '}' :: r2 => if (skipWs r2).isEmpty then some [] else none
    | _ =>
      match parsePairs (r.length + 1) r with
      | some p => if (skipWs p.2).isEmpty then some (dictOfPairs p.1) else none
      | none => none

theorem parsePairs_ws (f : Nat) (l : List Char) :
    parsePairs (f + 1) (' ' :: l) = parsePairs (f + 1) l := by
  simp only [parsePairs, skipWs_space]

theorem parsePairs_round (ps : List (String × String)) :
    ∀ (k v : String) (tail : List Char) (fuel : Nat), ps.length < fuel →
    parsePairs fuel (dumpPairs ((k, v) :: ps) ++ '}' :: tail) = some ((k, v) :: ps, tail) := by
  induction ps with
  | nil =>
    intro k v tail fuel hf
    cases fuel with
    | zero => omega
    | succ f =>
      have hstep : dumpPairs [(k, v)] ++ '}' :: tail =
          encodeJString k ++ (':' :: ' ' :: (encodeJString v ++ '}' :: tail)) := by
        rw [dumpPairs]
        simp [List.append_assoc]
      rw [parsePairs, hstep, skipWs_enc, parseStrLit_enc]
      simp only [skipWs_not_ws _ (show jsonWs ':' = false by decide)]
      simp only [skipWs_space, skipWs_enc, parseStrLit_enc,
        skipWs_not_ws _ (show jsonWs '}' = false by decide)]
  | cons q ps ih =>
    intro k v tail fuel hf
    cases fuel with
    | zero => omega
    | succ f =>
      obtain ⟨k2, v2⟩ := q
      have hstep : dumpPairs ((k, v) :: (k2, v2) :: ps) ++ '}' :: tail =
          encodeJString k ++ (':' :: ' ' :: (encodeJString v ++
            (',' :: ' ' :: (dumpPairs ((k2, v2) :: ps) ++ '}' :: tail)))) := by
        rw [dumpPairs]
        simp [List.append_assoc]
      rw [parsePairs, hstep, skipWs_enc, parseStrLit_enc]
      simp only [skipWs_not_ws _ (show jsonWs ':' = false by decide)]
      have hf2 : ps.length < f := by
        rw [List.length_cons] at hf
        omega
      cases f with
      | zero => omega
      | succ f2 =>
        have hin := ih k2 v2 tail (f2 + 1) hf2
        simp only [skipWs_space, skipWs_enc, parseStrLit_enc,
          skipWs_not_ws _ (show jsonWs ',' = false by decide), parsePairs_ws, hin,
          Option.map_some']

theorem dumpPairs_count (ps : List (String × String)) : ∀ q : String × String,
    (q :: ps).length ≤ (dumpPairs (q :: ps)).length := by
  induction ps with
  | nil =>
    intro q
    obtain ⟨k, v⟩ := q
    rw [show dumpPairs [(k, v)] = encodeJString k ++ (':' :: ' ' :: encodeJString v) from rfl]
    have := encodeJString_length k
    simp only [List.length_cons, List.length_nil, List.length_append]
    omega
  | cons q2 ps ih =>
    intro q
    obtain ⟨k, v⟩ := q
    obtain ⟨k2, v2⟩ := q2
    rw [show dumpPairs ((k, v) :: (k2, v2) :: ps) = encodeJString k ++
      (':' :: ' ' :: (encodeJString v ++ (',' :: ' ' :: dumpPairs ((k2, v2) :: ps)))) from rfl]
    have h1 := encodeJString_length k
    have h2 := ih (k2, v2)
    simp only [List.length_cons, List.length_append] at *
    omega

theorem foldl_insertJ (ps : List (String × String)) : ∀ acc : List (String × String),
    (acc.map Prod.fst ++ ps.map Prod.fst).Nodup →
    ps.foldl (fun m kv => insertJ m kv.1 kv.2) acc = acc ++ ps := by
  induction ps with
  | nil => intro acc _; simp
  | cons q ps ih =>
    intro acc hnd
    obtain ⟨k, v⟩ := q
    have hknot : k ∉ acc.map Prod.fst := by
      rw [List.nodup_append] at hnd
      intro hmem
      exact hnd.2.2 hmem (by simp)
    have hins : insertJ acc k v = acc ++ [(k, v)] := by
      rw [insertJ, if_neg]
      intro hany
      rw [List.any_eq_true] at hany
      obtain ⟨p, hp, hpk⟩ := hany
      rw [beq_iff_eq] at hpk
      exact hknot (by rw [← hpk]; exact List.mem_map_of_mem Prod.fst hp)
    have hnd2 : ((acc ++ [(k, v)]).map Prod.fst ++ ps.map Prod.fst).Nodup := by
      simp only [List.map_append, List.map_cons, List.map_nil, List.append_assoc] at hnd ⊢
      simpa using hnd
    rw [List.foldl_cons]
    rw [show insertJ acc (k, v).1 (k, v).2 = insertJ acc k v from rfl, hins]
    rw [ih (acc ++ [(k, v)]) hnd2]
    simp

theorem dictOfPairs_nodup (ps : List (String × String))
    (h : (ps.map Prod.fst).Nodup) : dictOfPairs ps = ps := by
  have := foldl_insertJ ps [] (by simpa using h)
  simpa [dictOfPairs] using this

theorem loadsStrDict_round (ps : List (String × String))
    (hnd : (ps.map Prod.fst).Nodup) :
    loadsStrDict (dumpsStrDict ps) = some ps := by
  cases ps with
  | nil => rfl
  | cons q ps =>
    obtain ⟨k, v⟩ := q
    have hbr : expectBrace (dumpsStrDict ((k, v) :: ps)) =
        some (dumpPairs ((k, v) :: ps) ++ ['}']) := by
      rw [dumpsStrDict, expectBrace]
      rw [skipWs_not_ws _ (show jsonWs '{' = false by decide)]
      rfl
    have hhead : ∃ t, dumpPairs ((k, v) :: ps) = '"' :: t := by
      cases ps with
      | nil => exact ⟨_, rfl⟩
      | cons q2 ps2 =>
        obtain ⟨k2, v2⟩ := q2
        exact ⟨_, rfl⟩
    obtain ⟨t, ht⟩ := hhead
    have hskip : skipWs (dumpPairs ((k, v) :: ps) ++ ['}']) = '"' :: (t ++ ['}']) := by
      rw [ht]
      simp only [List.cons_append]
      exact skipWs_not_ws _ (by decide)
    have hparse : parsePairs ((dumpPairs ((k, v) :: ps) ++ ['}']).length + 1)
        (dumpPairs ((k, v) :: ps) ++ ['}']) = some ((k, v) :: ps, []) := by
      have hfuel : ps.length < (dumpPairs ((k, v) :: ps) ++ ['}']).length + 1 := by
        have := dumpPairs_count ps (k, v)
        simp only [List.length_append, List.length_cons] at *
        omega
      exact parsePairs_round ps k v [] _ hfuel
    rw [loadsStrDict, hbr]
    simp only [hskip]
    simp only [List.length_append, List.length_cons, List.length_nil] at hparse ⊢
    simp [hparse, skipWs, dictOfPairs_nodup _ hnd]


/-! ### The data table (`bot/database.py`)

The `data` table has `user_id` as primary key and seven TEXT columns; a
database is modelled as a list of keyed rows, `REPLACE INTO` deletes any
row with the same key and appends the new row, and `SELECT ... WHERE
user_id = ?` returns the first matching row. -/

/-- One row of the `data` table: the seven JSON TEXT columns. -/
structure DataRow where
  categories : List Char
  source_accounts : List Char
  destination_accounts : List Char
  asset_accounts : List Char
  expense_accounts : List Char
  revenue_accounts : List Char
  account_ids : List Char
deriving DecidableEq, Repr

abbrev Db := List (String × DataRow)

/-- A user snapshot as handled by `save_data` / `get_data`: the seven
decoded values. -/
structure Snapshot where
  categories : List String
  source_accounts : List String
  destination_accounts : List String
  asset_accounts : List String
  expense_accounts : List String
  revenue_accounts : List String
  account_ids : List (String × String)
deriving DecidableEq, Repr

/-- `database.save_data` (`bot/database.py` lines 122..141): `json.dumps`
every field and `REPLACE INTO data`. -/
def save_data (user_id : String) (categories source_accounts destination_accounts
    asset_accounts expense_accounts revenue_accounts : List String)
    (account_ids : List (String × String)) (db : Db) : Db :=
  db.filter (fun row => row.1 != user_id) ++
    [(user_id,
      ⟨dumpsStrList categories, dumpsStrList source_accounts,
        dumpsStrList destination_accounts, dumpsStrList asset_accounts,
        dumpsStrList expense_accounts, dumpsStrList revenue_accounts,
        dumpsStrDict account_ids⟩)]

/-- `database.get_data` (`bot/database.py` lines 99..120): select the row
and `json.loads` every column (`None` when the user has no row; a decode
failure would be a raised exception, also modelled as `none` — rows
written by `save_data` always decode). -/
def get_data (user_id : String) (db : Db) : Option Snapshot :=
  match db.find? (fun row => row.1 == user_id) with
  | none => none
  | some (_, row) =>
    match loadsStrList row.categories, loadsStrList row.source_accounts,
        loadsStrList row.destination_accounts, loadsStrList row.asset_accounts,
        loadsStrList row.expense_accounts, loadsStrList row.revenue_accounts,
        loadsStrDict row.account_ids with
    | some c, some s, some d, some a, some e, some r, some ids =>
      some ⟨c, s, d, a, e, r, ids⟩
    | _, _, _, _, _, _, _ => none

theorem find?_save (user : String) (row : DataRow) (db : Db) :
    (db.filter (fun r => r.1 != user) ++ [(user, row)]).find?
      (fun r => r.1 == user) = some (user, row) := by
  induction db with
  | nil => simp [List.find?]
  | cons x db ih =>
    by_cases hx : x.1 = user
    · simp only [List.filter_cons]
      rw [if_neg (by simp [hx])]
      exact ih
    · simp only [List.filter_cons]
      rw [if_pos (by simp [hx])]
      simp only [List.cons_append, List.find?]
      rw [show (x.1 == user) = false by simp [hx]]
      exact ih

/-- **C9** — Saving a snapshot with `save_data` and reloading it with
`get_data` for the same user yields a snapshot field-for-field identical
to the original, for arbitrary string names and identifiers (the
account-id map being a map, its keys are distinct). -/
theorem c9_roundtrip (user : String) (snap : Snapshot) (db : Db)
    (hkeys : (snap.account_ids.map Prod.fst).Nodup) :
    get_data user
      (save_data user snap.categories snap.source_accounts
        snap.destination_accounts snap.asset_accounts snap.expense_accounts
        snap.revenue_accounts snap.account_ids db) = some snap := by
  rw [save_data, get_data, find?_save]
  simp only [loadsStrList_round, loadsStrDict_round _ hkeys]

/-- A concrete snapshot exercising accents, quotes, a backslash and an
astral-plane character in the stored names. -/
def snapDemo : Snapshot :=
  ⟨["Food", "Café \"bar\""], ["Checking", "A\\B"], ["Checking"],
    ["Checking"], ["Shop"], ["Salary 𝄞"],
    [("Checking", "1"), ("Shop", "2")]⟩

/-- Witness for C9 on a concrete snapshot with accented, quoted,
backslashed and astral-plane names, over a database holding another
user's row. -/
theorem c9_witness :
    (snapDemo.account_ids.map Prod.fst).Nodup ∧
    get_data "42"
      (save_data "42" snapDemo.categories snapDemo.source_accounts
        snapDemo.destination_accounts snapDemo.asset_accounts
        snapDemo.expense_accounts snapDemo.revenue_accounts
        snapDemo.account_ids [("7", ⟨[], [], [], [], [], [], []⟩)]) = some snapDemo :=
  ⟨by decide,
    c9_roundtrip "42" snapDemo [("7", ⟨[], [], [], [], [], [], []⟩)] (by decide)⟩

/-! ### Snapshot refresh (`FireFlyTelegram.get_ff_data`, `bot/firefly.py`
lines 130..172)

The two remote fetches (`categories`, then `accounts`, each following
pagination) are performed by the external `requests` library; they are
modelled as oracle inputs that either fail (any network error or
malformed-response `KeyError`, all subclasses of `Exception`) or produce
well-typed data.  The whole body runs inside `try ... except Exception`,
which only logs: the function always returns normally.  `self.save_data`
(the database write) is the last statement of the `try` block. -/

structure Account where
  name : String
  type : String
  id : String
deriving DecidableEq, Repr

structure FetchEnv where
  categoriesResp : Except Unit (List String)
  accountsResp : Except Unit (List Account)

/-- In-memory per-user fields touched by `get_ff_data`. -/
structure MemData where
  categories : Option (List String)
  source_accounts : Option (List String)
  destination_accounts : Option (List String)
  asset_accounts : Option (List String)
  expense_accounts : Option (List String)
  revenue_accounts : Option (List String)
  account_ids : Option (List (String × String))
deriving DecidableEq, Repr

/-- The dict comprehension over account names and ids (line 159); later
duplicates overwrite the stored id, keeping first-insertion order. -/
def accountIdsOf (accs : List Account) : List (String × String) :=
  accs.foldl (fun m a => insertJ m a.name a.id) []

def sourceNames (accs : List Account) : List String :=
  (accs.filter (fun a => a.type == "revenue" || a.type == "asset")).map Account.name

def destinationNames (accs : List Account) : List String :=
  (accs.filter (fun a => a.type == "expense" || a.type == "asset")).map Account.name

def assetNames (accs : List Account) : List String :=
  (accs.filter (fun a => a.type == "asset")).map Account.name

def expenseNames (accs : List Account) : List String :=
  (accs.filter (fun a => a.type == "expense")).map Account.name

def revenueNames (accs : List Account) : List String :=
  (accs.filter (fun a => a.type == "revenue")).map Account.name

/-- `get_ff_data`: fetch and store categories, then fetch and partition
accounts, then persist; any failure is caught, logged, and leaves the
database untouched (the in-memory categories may already be updated).
The function never raises to its caller. -/
def get_ff_data (env : FetchEnv) (user : String) (st : MemData) (db : Db) :
    MemData × Db :=
  match env.categoriesResp with
  | .error _ => (st, db)
  | .ok cats =>
    let st1 := { st with categories := some cats }
    match env.accountsResp with
    | .error _ => (st1, db)
    | .ok accs =>
      let st2 : MemData :=
        ⟨some cats, some (sourceNames accs), some (destinationNames accs),
          some (assetNames accs), some (expenseNames accs),
          some (revenueNames accs), some (accountIdsOf accs)⟩
      (st2,
        save_data user cats (sourceNames accs) (destinationNames accs)
          (assetNames accs) (expenseNames accs) (revenueNames accs)
          (accountIdsOf accs) db)

/-- **C8** — If either fetch of the snapshot refresh fails, the refresh
returns normally (the model is a total function: the Python body is
wrapped in `try ... except Exception` which only logs) and the persisted
database is exactly as before; the persisted snapshot is replaced — via
`save_data`, the last statement of the `try` block — only when both
fetches succeeded, and then holds exactly the freshly partitioned data. -/
theorem c8_refresh_atomic (env : FetchEnv) (user : String) (st : MemData) (db : Db) :
    (env.categoriesResp = .error () ∨ env.accountsResp = .error () →
      (get_ff_data env user st db).2 = db) ∧
    (∀ cats accs, env.categoriesResp = .ok cats → env.accountsResp = .ok accs →
      (get_ff_data env user st db).2 =
        save_data user cats (sourceNames accs) (destinationNames accs)
          (assetNames accs) (expenseNames accs) (revenueNames accs)
          (accountIdsOf accs) db) := by
  constructor
  · intro h
    rcases h with h | h
    · rw [get_ff_data, h]
    · cases hc : env.categoriesResp with
      | error u => rw [get_ff_data, hc]
      | ok cats => rw [get_ff_data, hc, h]
  · intro cats accs hc ha
    rw [get_ff_data, hc, ha]

/-- Witness for C8 at a concrete failing environment. -/
theorem c8_witness :
    ((⟨Except.error (), Except.ok []⟩ : FetchEnv).categoriesResp = .error () ∨
      (⟨Except.error (), Except.ok []⟩ : FetchEnv).accountsResp = .error ()) ∧
    (get_ff_data ⟨Except.error (), Except.ok []⟩ "42"
      ⟨none, none, none, none, none, none, none⟩ []).2 = [] :=
  ⟨Or.inl rfl,
    (c8_refresh_atomic ⟨Except.error (), Except.ok []⟩ "42"
      ⟨none, none, none, none, none, none, none⟩ []).1 (Or.inl rfl)⟩

end FireflyBot
